import Mathlib

/-!
# POP3 session engine (`mypopd.c`)

A shallow embedding of the command handlers and the session loop of `mypopd.c`,
followed by the properties established about them.

Conventions of the embedding.

* A handler `int do_x(serverstate *ss)` becomes a function from the session state to the
  new session state and the returned `int`.
* `send_formatted` is a collaborator from `util.h`.  Its effect is recorded in the ghost
  field `sent` (every line handed to the writer, in order) and its return value is taken
  from the environment: `Env.send_result k` is what the `k`-th call returns.
* The mail store (`mailuser.h`) is not part of the sources.  It is modelled from the
  specification (sections 4.3 and 6); every call made to it is recorded in the ghost
  field `mailCalls`.
* `int deletedSet[100]` is a list of exactly one hundred cells.  An access outside the
  array has no defined result: the handlers that index it return `none` there.
* A position is held in an `int`: `atoi` and the expression `j - 1` keep 32 bits, two's
  complement.
-/

set_option maxRecDepth 8000

namespace POP3

/-! ## Data model -/

/-- Protocol phase of a session: `typedef enum state`. -/
inductive State where
  | Undefined
  | AUTHORIZATION
  | AUTHORIZATIONPASS
  | TRANSACTION
  | UPDATE
  deriving DecidableEq

/-- Modelled from the spec: the slot type behind `mail_item_t` (mailuser.h is absent).
Section 3 gives each slot a byte size, a `deleted` flag and a reference to its contents;
`contents = none` stands for a content stream that cannot be opened. -/
structure mail_item where
  size : Nat
  contents : Option (List String)
  deleted : Bool
  deriving DecidableEq

/-- Modelled from the spec: the value behind `mail_list_t` (mailuser.h is absent), the
ordered sequence of slots of section 3.  Slot `i` (0-based) is position `i + 1`. -/
abbrev mail_list_t := List mail_item

/-- Modelled from the spec: `mail_item_t` (mailuser.h is absent) is a reference to a slot
of the list it was retrieved from, represented by the 0-based index of that slot. -/
abbrev mail_item_t := Nat

/-- A message of the backing store, as `load_user_mail` finds it. -/
structure message where
  size : Nat
  contents : Option (List String)
  deriving DecidableEq

/-- Ghost record of one call into the mail store. -/
inductive MailCall where
  | load_user_mail (user : String)
  | mail_list_length (include_deleted : Int)
  | mail_list_size
  | mail_list_retrieve (pos : Int)
  | mail_item_size (item : mail_item_t)
  | mail_item_contents (item : mail_item_t)
  | mail_item_delete (item : mail_item_t)
  | mail_list_undelete
  | mail_list_destroy (list : mail_list_t)
  deriving DecidableEq

/-- The array type `int[100]` of the field `deletedSet`. -/
abbrev DeletedSet := {l : List Int // l.length = 100}

/-- The session record `struct serverstate`.  The fields `nb`, `recvbuf`, `nwords` and
`my_uname` are only used by the read loop and are not represented; `words` is the
NULL-terminated token array (so `words[1] == NULL` is `words[1]? = none`).  The last two
fields are ghost state: `sent` lists the lines handed to `send_formatted`, `mailCalls`
lists the calls made to the mail store. -/
structure serverstate where
  fd : Int
  words : List String
  state : State
  savedUser : String
  mailList : mail_list_t
  deletedSet : DeletedSet
  sent : List String
  mailCalls : List MailCall
  deriving DecidableEq

/-- What surrounds a session: the outcome of each response write, the credential store
and the backing mail store. -/
structure Env where
  /-- Return value of the `k`-th call of `send_formatted` (0-based). -/
  send_result : Nat → Int
  /-- The function `is_valid_user(name, password)` of mailuser.h; the password may be NULL. -/
  is_valid_user : String → Option String → Int
  /-- Messages of each user in the backing store, in store order. -/
  maildrop : String → List message

/-! ## Collaborators -/

/-- Hands one formatted line to the response writer (`send_formatted` of util.h): the line
is appended to `sent` and the result is the environment's outcome for this write. -/
def send_formatted (env : Env) (ss : serverstate) (line : String) : serverstate × Int :=
  ({ ss with sent := ss.sent ++ [line] }, env.send_result ss.sent.length)

/-- Appends one call to the ghost record of mail store calls. -/
def record (ss : serverstate) (c : MailCall) : serverstate :=
  { ss with mailCalls := ss.mailCalls ++ [c] }

/-- Modelled from the spec: `load_user_mail` (mailuser.h is absent) builds one slot per
message present in the store, in store order, each with its `deleted` flag false. -/
def load_user_mail (env : Env) (user : String) : mail_list_t :=
  (env.maildrop user).map (fun m => { size := m.size, contents := m.contents, deleted := false })

/-- Modelled from the spec: `mail_list_length` (mailuser.h is absent), "count of messages,
optionally including deleted ones". -/
def mail_list_length (l : mail_list_t) (include_deleted : Int) : Nat :=
  if include_deleted ≠ 0 then l.length else (l.filter (fun m => !m.deleted)).length

/-- Modelled from the spec: `mail_list_size` (mailuser.h is absent), "sum of sizes of
non-deleted messages". -/
def mail_list_size (l : mail_list_t) : Nat :=
  ((l.filter (fun m => !m.deleted)).map (fun m => m.size)).sum

/-- Modelled from the spec: `mail_list_retrieve` (mailuser.h is absent), "absent if
position out of the original range OR the slot at that position is deleted".  The
argument is the 0-based index the handlers pass (`j - 1`, or the loop counter). -/
def mail_list_retrieve (l : mail_list_t) (pos : Int) : Option mail_item_t :=
  if 0 ≤ pos then
    match l[pos.toNat]? with
    | some m => if m.deleted then none else some pos.toNat
    | none => none
  else none

/-- Modelled from the spec: `mail_item_size` (mailuser.h is absent), the byte size of the
slot an item refers to. -/
def mail_item_size (l : mail_list_t) (item : mail_item_t) : Nat :=
  match l[item]? with
  | some m => m.size
  | none => 0

/-- Modelled from the spec: `mail_item_contents` (mailuser.h is absent), the line stream
of the slot an item refers to, or absent. -/
def mail_item_contents (l : mail_list_t) (item : mail_item_t) : Option (List String) :=
  match l[item]? with
  | some m => m.contents
  | none => none

/-- Modelled from the spec: `mail_item_delete` (mailuser.h is absent) sets the `deleted`
flag of the slot an item refers to. -/
def mail_item_delete (l : mail_list_t) (item : mail_item_t) : mail_list_t :=
  l.modify (fun m => { m with deleted := true }) item

/-- Modelled from the spec: `mail_list_undelete` (mailuser.h is absent) "clears every
deleted flag; returns number of slots that were deleted before the call". -/
def mail_list_undelete (l : mail_list_t) : mail_list_t × Nat :=
  (l.map (fun m => { m with deleted := false }), (l.filter (fun m => m.deleted)).length)

/-- The C library predicate `isspace` in the "C" locale. -/
def isspace (c : Char) : Bool :=
  c = ' ' || c = '\t' || c = '\n' || c = '\x0b' || c = '\x0c' || c = '\r'

/-- The C library function `atoi`, that is `(int) strtol(s, NULL, 10)`: leading white
space, an optional sign, then the longest run of decimal digits (0 when there is none).
Out of range values follow glibc: `strtol` saturates at the bounds of `long` and the
conversion to `int` keeps the low 32 bits. -/
def atoi (s : String) : Int :=
  let cs := s.toList.dropWhile isspace
  let signed : Bool × List Char :=
    match cs with
    | '-' :: r => (true, r)
    | '+' :: r => (false, r)
    | r => (false, r)
  let n : Nat := (signed.2.takeWhile Char.isDigit).foldl (fun a c => 10 * a + (c.toNat - 48)) 0
  let v : Int := if signed.1 then -(n : Int) else (n : Int)
  let l : Int := max (-(2 ^ 63)) (min v (2 ^ 63 - 1))
  (l + 2 ^ 31) % 2 ^ 32 - 2 ^ 31

/-- The C expression `j - 1` on an `int`: the difference kept in 32 bits, two's complement.
It is `j - 1` except at `INT_MIN`, where the subtraction overflows and the value seen is
`INT_MAX`. -/
def int_pred (j : Int) : Int :=
  (j - 1 + 2 ^ 31) % 2 ^ 32 - 2 ^ 31

/-- What the format `%s` writes for a buffer: its characters up to the first null byte. -/
def c_string (s : String) : String :=
  String.mk (s.toList.takeWhile (fun c => c ≠ Char.ofNat 0))

/-- Reads `deletedSet[i]`; there is no result outside the bounds of the array. -/
def DeletedSet.read (d : DeletedSet) (i : Int) : Option Int :=
  if 0 ≤ i then d.val[i.toNat]? else none

/-- Performs `deletedSet[i] = v`; there is no result outside the bounds of the array. -/
def DeletedSet.write (d : DeletedSet) (i : Int) (v : Int) : Option DeletedSet :=
  if 0 ≤ i ∧ i.toNat < 100 then
    some ⟨d.val.set i.toNat v, by rw [List.length_set]; exact d.property⟩
  else none

/-- The all-zero deletion array written by the initialisation loops of `do_pass` and
`do_rset` (`for (int i = 0; i < 100; i++) ss->deletedSet[i] = 0;`). -/
def zeroSet : DeletedSet := ⟨List.replicate 100 0, List.length_replicate 100 0⟩

/-! ## Command handlers -/

/-- Embedding of `syntax_error`. -/
def syntax_error (env : Env) (ss : serverstate) : serverstate × Int :=
  let r := send_formatted env ss "-ERR Syntax error in parameters or arguments\r\n"
  if r.2 ≤ 0 then (r.1, -1) else (r.1, 1)

/-- Embedding of `checkstate`. -/
def checkstate (env : Env) (ss : serverstate) (s : State) : serverstate × Int :=
  if ss.state ≠ s then
    let r := send_formatted env ss "-ERR Bad sequence of commands\r\n"
    if r.2 ≤ 0 then (r.1, -1) else (r.1, 1)
  else (ss, 0)

/-- Embedding of `do_quit`. -/
def do_quit (env : Env) (ss : serverstate) : serverstate × Int :=
  let ss1 := if ss.state = State.TRANSACTION then { ss with state := State.UPDATE } else ss
  let ss2 := record ss1 (MailCall.mail_list_destroy ss1.mailList)
  let r := send_formatted env ss2 "+OK Service closing transmission channel\r\n"
  if r.2 ≥ 0 then (r.1, -1) else (r.1, 1)

/-- Embedding of `do_user`. -/
def do_user (env : Env) (ss : serverstate) : serverstate × Int :=
  if ss.state = State.AUTHORIZATION then
    match ss.words[1]? with
    | none => syntax_error env ss
    | some name =>
      if env.is_valid_user name none = 0 then
        ((send_formatted env ss "-ERR No such user exist\r\n").1, 1)
      else
        let ss1 := (send_formatted env ss "+OK User is valid, proceed with password\r\n").1
        ({ ss1 with savedUser := name, state := State.AUTHORIZATIONPASS }, 0)
  else checkstate env ss State.AUTHORIZATION

/-- Embedding of `do_pass`. -/
def do_pass (env : Env) (ss : serverstate) : serverstate × Int :=
  if ss.state = State.AUTHORIZATIONPASS then
    match ss.words[1]? with
    | none => syntax_error env ss
    | some password =>
      if env.is_valid_user ss.savedUser (some password) = 0 then
        let ss1 := (send_formatted env ss "-ERR Invalid password\r\n").1
        ({ ss1 with state := State.AUTHORIZATION }, 1)
      else
        let ss1 := (send_formatted env ss "+OK Password is valid, mail loaded\r\n").1
        let ss2 := record { ss1 with state := State.TRANSACTION }
          (MailCall.load_user_mail ss1.savedUser)
        ({ ss2 with mailList := load_user_mail env ss2.savedUser, deletedSet := zeroSet }, 0)
  else checkstate env ss State.AUTHORIZATIONPASS

/-- Embedding of `do_stat`. -/
def do_stat (env : Env) (ss : serverstate) : serverstate × Int :=
  let c := checkstate env ss State.TRANSACTION
  if c.2 = 1 then (c.1, 1)
  else
    let ss1 := record (record c.1 (MailCall.mail_list_length 0)) MailCall.mail_list_size
    let mailLength := mail_list_length ss1.mailList 0
    let mailSize := mail_list_size ss1.mailList
    ((send_formatted env ss1
      ("+OK " ++ toString mailLength ++ " " ++ toString mailSize ++ "\r\n")).1, 0)

/-- The body of the listing loop of `do_list`,
`for (int i = 0; i < mLengthWDeleted; i++)`, run over the remaining values of `i`.
The second component is `some r` when the loop left the handler with `return r`. -/
def do_list_loop (env : Env) : List Nat → serverstate → Option (serverstate × Option Int)
  | [], ss => some (ss, none)
  | i :: rest, ss =>
    match ss.deletedSet.read i with
    | none => none
    | some d =>
      if d ≠ 1 then
        let ss1 := record ss (MailCall.mail_list_retrieve i)
        match mail_list_retrieve ss1.mailList i with
        | none => some (ss1, some 1)
        | some mItem =>
          let ss2 := record ss1 (MailCall.mail_item_size mItem)
          let iSize := mail_item_size ss2.mailList mItem
          do_list_loop env rest
            (send_formatted env ss2 (toString (i + 1) ++ " " ++ toString iSize ++ "\r\n")).1
      else do_list_loop env rest ss

/-- Embedding of `do_list`; `none` when the listing loop reads outside `deletedSet`. -/
def do_list (env : Env) (ss : serverstate) : Option (serverstate × Int) :=
  let c := checkstate env ss State.TRANSACTION
  if c.2 = 1 then some (c.1, 1)
  else
    let ss1 := record (record (record c.1 (MailCall.mail_list_length 0))
      (MailCall.mail_list_length 1)) MailCall.mail_list_size
    let mLength := mail_list_length ss1.mailList 0
    let mLengthWDeleted := mail_list_length ss1.mailList 1
    let mSize := mail_list_size ss1.mailList
    match ss1.words[1]? with
    | none =>
      let ss2 := (send_formatted env ss1
        ("+OK " ++ toString mLength ++ " messages (" ++ toString mSize ++ " octets)\r\n")).1
      match do_list_loop env (List.range mLengthWDeleted) ss2 with
      | none => none
      | some (ss3, some r) => some (ss3, r)
      | some (ss3, none) => some ((send_formatted env ss3 ".\r\n").1, 0)
    | some w =>
      let j := atoi w
      let ss2 := record ss1 (MailCall.mail_list_retrieve (int_pred j))
      match mail_list_retrieve ss2.mailList (int_pred j) with
      | none =>
        some ((send_formatted env ss2 ("-ERR no such message, only " ++ toString mLength
          ++ " messages in maildrop\r\n")).1, 0)
      | some mItem =>
        let ss3 := record ss2 (MailCall.mail_item_size mItem)
        let iSize := mail_item_size ss3.mailList mItem
        some ((send_formatted env ss3
          ("+OK " ++ toString j ++ " " ++ toString iSize ++ "\r\n")).1, 0)

/-- The streaming loop of `do_retr`: every line `getline` yields is sent through the
format `%s`, which writes it up to its first null byte. -/
def send_lines (env : Env) (ss : serverstate) (lines : List String) : serverstate :=
  lines.foldl (fun s line => (send_formatted env s (c_string line)).1) ss

/-- Embedding of `do_retr`. -/
def do_retr (env : Env) (ss : serverstate) : serverstate × Int :=
  let c := checkstate env ss State.TRANSACTION
  if c.2 = 1 then (c.1, 1)
  else
    match c.1.words[1]? with
    | none => syntax_error env c.1
    | some w =>
      let j := atoi w
      let ss1 := record c.1 (MailCall.mail_list_retrieve (int_pred j))
      match mail_list_retrieve ss1.mailList (int_pred j) with
      | none => ((send_formatted env ss1 "-ERR no such message\r\n").1, 0)
      | some mItem =>
        let ss2 := record ss1 (MailCall.mail_item_size mItem)
        let ss3 := (send_formatted env ss2
          ("+OK " ++ toString (mail_item_size ss2.mailList mItem) ++ " octets\r\n")).1
        let ss4 := record ss3 (MailCall.mail_item_contents mItem)
        match mail_item_contents ss4.mailList mItem with
        | none => (ss4, 1)
        | some lines => ((send_formatted env (send_lines env ss4 lines) ".\r\n").1, 0)

/-- Embedding of `do_rset`. -/
def do_rset (env : Env) (ss : serverstate) : serverstate × Int :=
  let c := checkstate env ss State.TRANSACTION
  if c.2 = 1 then (c.1, 1)
  else
    let ss1 := record c.1 MailCall.mail_list_undelete
    let u := mail_list_undelete ss1.mailList
    let restoredM := u.2
    let ss2 := { ss1 with mailList := u.1, deletedSet := zeroSet }
    ((send_formatted env ss2 ("+OK " ++ toString restoredM ++ " messages restored\r\n")).1, 0)

/-- Embedding of `do_noop`. -/
def do_noop (env : Env) (ss : serverstate) : serverstate × Int :=
  let c := checkstate env ss State.TRANSACTION
  if c.2 = 1 then (c.1, 1)
  else ((send_formatted env c.1 "+OK\r\n").1, 0)

/-- Embedding of `do_dele`; `none` when `deletedSet[j - 1] = 1` writes outside the array. -/
def do_dele (env : Env) (ss : serverstate) : Option (serverstate × Int) :=
  let c := checkstate env ss State.TRANSACTION
  if c.2 = 1 then some (c.1, 1)
  else
    match c.1.words[1]? with
    | none => some (syntax_error env c.1)
    | some w =>
      let j := atoi w
      let ss1 := record c.1 (MailCall.mail_list_retrieve (int_pred j))
      match mail_list_retrieve ss1.mailList (int_pred j) with
      | none => some ((send_formatted env ss1 "-ERR no such message\r\n").1, 0)
      | some mItem =>
        let ss2 := record ss1 (MailCall.mail_item_delete mItem)
        let ss3 := { ss2 with mailList := mail_item_delete ss2.mailList mItem }
        match ss3.deletedSet.write (int_pred j) 1 with
        | none => none
        | some d =>
          some ((send_formatted env { ss3 with deletedSet := d }
            ("+OK message " ++ toString j ++ " deleted\r\n")).1, 0)

/-! ## Session loop -/

/-- The C library function `strcasecmp`, as far as the dispatcher uses it: the result is
0 exactly when the two strings are equal up to the case of ASCII letters. -/
def strcasecmp (a b : String) : Int :=
  if a.toList.map Char.toLower = b.toList.map Char.toLower then 0 else 1

/-- The C library function `strlen` on a buffer: the number of characters before the
first null byte. -/
def strlen (buf : List Char) : Nat :=
  (buf.takeWhile (fun c => c ≠ Char.ofNat 0)).length

/-- Modelled from the spec: `split` (util.h is absent) cuts a trimmed line "into
whitespace-separated tokens". -/
def split (buf : List Char) : List String :=
  ((buf.splitOnP isspace).filter (fun w => w ≠ [])).map String.mk

/-- The dispatch chain of `handle_client` on the tokens in `ss.words`.  The second
component tells whether the loop is left with `break`.  There is no result when
`words[0]` is NULL. -/
def handle_command (env : Env) (ss : serverstate) : Option (serverstate × Bool) :=
  match ss.words[0]? with
  | none => none
  | some command =>
    if strcasecmp command "QUIT" = 0 then
      let r := do_quit env ss
      some (r.1, r.2 = -1)
    else if strcasecmp command "USER" = 0 then
      let r := do_user env ss
      some (r.1, r.2 = -1)
    else if strcasecmp command "PASS" = 0 then
      let r := do_pass env ss
      some (r.1, r.2 = -1)
    else if strcasecmp command "STAT" = 0 then
      let r := do_stat env ss
      some (r.1, r.2 = -1)
    else if strcasecmp command "LIST" = 0 then
      (do_list env ss).map (fun r => (r.1, r.2 = -1))
    else if strcasecmp command "RETR" = 0 then
      let r := do_retr env ss
      some (r.1, r.2 = -1)
    else if strcasecmp command "RSET" = 0 then
      let r := do_rset env ss
      some (r.1, r.2 = -1)
    else if strcasecmp command "NOOP" = 0 then
      let r := do_noop env ss
      some (r.1, r.2 = -1)
    else if strcasecmp command "DELE" = 0 then
      (do_dele env ss).map (fun r => (r.1, r.2 = -1))
    else if strcasecmp command "TOP" = 0 ∨ strcasecmp command "UIDL" = 0
        ∨ strcasecmp command "APOP" = 0 then
      let r := send_formatted env ss "-ERR Command not implemented\r\n"
      some (r.1, r.2 ≤ 0)
    else
      let r := send_formatted env ss "-ERR Syntax error, command unrecognized\r\n"
      some (r.1, r.2 ≤ 0)

/-- One iteration of the loop of `handle_client` on the `len` characters `buf` that
`nb_read_line` stored in `recvbuf`.  The second component tells whether the loop is left
with `break`.  There is no result when `recvbuf[len - 1]` lies before the buffer, which
happens for `len = 0` and while trimming a line made of white space only. -/
def handle_line (env : Env) (ss : serverstate) (buf : List Char) :
    Option (serverstate × Bool) :=
  match buf.getLast? with
  | none => none
  | some last =>
    if last ≠ '\n' then
      some ((send_formatted env ss "-ERR Syntax error, command unrecognized\r\n").1, true)
    else if strlen buf < buf.length then
      some ((send_formatted env ss "-ERR Syntax error, command unrecognized\r\n").1, true)
    else
      let trimmed := (buf.reverse.dropWhile isspace).reverse
      if trimmed = [] then none
      else if strlen trimmed = 0 then
        some ((send_formatted env ss
          "-ERR Syntax error, blank command unrecognized\r\n").1, true)
      else handle_command env { ss with words := split trimmed }

/-- The loop of `handle_client` run over a finite prefix of the successive contents of
`recvbuf`: the result is the session at the `break` when one of the listed reads leads to
it, and otherwise the session after the last listed read, with the loop about to call
`nb_read_line` again.  What `nb_read_line` returns at the end of the input, and what the
loop does with it, is not represented. -/
def handle_client_loop (env : Env) : List String → serverstate → Option serverstate
  | [], ss => some ss
  | buf :: rest, ss =>
    match handle_line env ss buf.toList with
    | none => none
    | some (ss1, true) => some ss1
    | some (ss1, false) => handle_client_loop env rest ss1

/-- Embedding of `handle_client`.  `mstate` is the uninitialised session record on the
stack, `nodename` the host name that `uname` reports. -/
def handle_client (env : Env) (fd : Int) (mstate : serverstate) (nodename : String)
    (reads : List String) : Option serverstate :=
  let ss := { mstate with fd := fd, state := State.Undefined, sent := [], mailCalls := [] }
  let r := send_formatted env ss ("+OK POP3 Server on " ++ nodename ++ " ready\r\n")
  if r.2 ≤ 0 then some r.1
  else handle_client_loop env reads { r.1 with state := State.AUTHORIZATION }

/-! ## Sample environment and sessions -/

/-- A sample environment: every write succeeds, the only account is `bob` with password
`ok`, and the maildrop of `bob` holds two messages of 120 and 80 octets. -/
def sampleEnv : Env where
  send_result := fun _ => 1
  is_valid_user := fun u p => if u = "bob" ∧ (p = none ∨ p = some "ok") then 1 else 0
  maildrop := fun u =>
    if u = "bob" then
      [{ size := 120, contents := some ["first\r\n"] }, { size := 80, contents := some ["second\r\n"] }]
    else []

/-- The sample environment with every response write failing (`send_formatted` returns -1). -/
def brokenPipeEnv : Env :=
  { sampleEnv with send_result := fun _ => -1 }

/-- A session that has just been greeted: phase AUTHORIZATION, nothing loaded. -/
def freshSession : serverstate where
  fd := 4
  words := []
  state := State.AUTHORIZATION
  savedUser := ""
  mailList := []
  deletedSet := zeroSet
  sent := []
  mailCalls := []

/-- The session of `bob` right after `USER bob` and `PASS ok` in the sample environment. -/
def bobSession : serverstate :=
  (do_pass sampleEnv
    { (do_user sampleEnv { freshSession with words := ["USER", "bob"] }).1 with
      words := ["PASS", "ok"] }).1

/-! ## Positions of a mailbox view -/

/-- Whether the slot of 0-based index `i` (position `i + 1`) carries a deletion mark. -/
def marked (l : mail_list_t) (i : Nat) : Bool :=
  match l[i]? with
  | some m => m.deleted
  | none => false

/-- The 0-based indices of the slots without a deletion mark, in increasing order. -/
def visible (l : mail_list_t) : List Nat :=
  (List.range l.length).filter (fun i => !marked l i)

/-- The 0-based indices of the slots with a deletion mark, in increasing order: the set
`D` of deleted positions, each position being the index plus one. -/
def deletedIndices (l : mail_list_t) : List Nat :=
  (List.range l.length).filter (fun i => marked l i)

/-- The session of `bob` after `DELE 1`. -/
def bobAfterDele1 : Option (serverstate × Int) :=
  do_dele sampleEnv { bobSession with words := ["DELE", "1"] }

/-- The line a listing prints for the slot of 0-based index `i`: its position `i + 1`
and its size. -/
def list_line (l : mail_list_t) (i : Nat) : String :=
  toString (i + 1) ++ " " ++ toString (mail_item_size l i) ++ "\r\n"

/-- The calls to the mail store a listing makes for the slot of 0-based index `i`. -/
def list_calls (i : Nat) : List MailCall :=
  [MailCall.mail_list_retrieve i, MailCall.mail_item_size i]

/-- The session's `deletedSet` agrees with its mailbox view: for every index `i` below the
number of slots, `deletedSet[i]` is 1 when slot `i` carries a deletion mark and 0 when it
does not.  `do_pass` establishes this for a mailbox that fits the hundred cells, and
`do_dele` and `do_rset` keep it. -/
def consistent (ss : serverstate) : Prop :=
  ∀ i : Nat, i < ss.mailList.length →
    ss.deletedSet.read i = some (if marked ss.mailList i then 1 else 0)

/-- The session of `bob` after `DELE 1` was answered. -/
def bobDeleted1 : serverstate :=
  match bobAfterDele1 with
  | some r => r.1
  | none => bobSession

/-- The sample environment in which exactly one response write fails: the third one
(index 2), which for the session of `bob` is the write that follows `USER` and `PASS`. -/
def lostReplyEnv : Env :=
  { sampleEnv with send_result := fun k => if k = 2 then -1 else 1 }

/-- The loop of `handle_client` over lines that are already split into tokens: each
token list is stored in `words` and dispatched, and the loop stops at the first `break`. -/
def run_commands (env : Env) : List (List String) → serverstate → Option serverstate
  | [], ss => some ss
  | w :: rest, ss =>
    match handle_command env { ss with words := w } with
    | none => none
    | some (s1, true) => some s1
    | some (s1, false) => run_commands env rest s1

/-- The token list of a `STAT`, `LIST`, `RETR`, `DELE` or `NOOP` command, in any case. -/
def view_command (w : List String) : Prop :=
  ∃ c : String, w[0]? = some c ∧
    (strcasecmp c "STAT" = 0 ∨ strcasecmp c "LIST" = 0 ∨ strcasecmp c "RETR" = 0
      ∨ strcasecmp c "DELE" = 0 ∨ strcasecmp c "NOOP" = 0)

/-- A TRANSACTION session, with `deletedSet` in agreement with the view, in which the slot
of 0-based index `k` carries a deletion mark. -/
def hides (ss : serverstate) (k : Nat) : Prop :=
  ss.state = State.TRANSACTION ∧ consistent ss ∧ marked ss.mailList k = true

/-- The sample environment with a maildrop of `bob` whose single message, of 120 octets,
has no content stream (`mail_item_contents` returns NULL). -/
def unreadableEnv : Env :=
  { sampleEnv with
    maildrop := fun u => if u = "bob" then [{ size := 120, contents := none }] else [] }

/-- The session of `bob` right after `USER bob` and `PASS ok` in `unreadableEnv`. -/
def unreadableSession : serverstate :=
  (do_pass unreadableEnv
    { (do_user unreadableEnv { freshSession with words := ["USER", "bob"] }).1 with
      words := ["PASS", "ok"] }).1

/-- The decimal digits `atoi` reads from a token: what follows the leading white space and
an optional sign, up to the first character that is not a digit. -/
def leading_digits (s : String) : List Char :=
  let cs := s.toList.dropWhile isspace
  let signed : Bool × List Char :=
    match cs with
    | '-' :: r => (true, r)
    | '+' :: r => (false, r)
    | r => (false, r)
  signed.2.takeWhile Char.isDigit

/-- The integer denoted by the sign and the digits `atoi` reads from a token, before any
conversion to a machine integer; 0 when there is no digit. -/
def leading_value (s : String) : Int :=
  let cs := s.toList.dropWhile isspace
  let signed : Bool × List Char :=
    match cs with
    | '-' :: r => (true, r)
    | '+' :: r => (false, r)
    | r => (false, r)
  let n : Nat := (signed.2.takeWhile Char.isDigit).foldl (fun a c => 10 * a + (c.toNat - 48)) 0
  if signed.1 then -(n : Int) else (n : Int)

/-- The session of `bob` after a `QUIT` whose reply could not be written: `do_quit`
returned 1, the loop went on, and the phase is UPDATE. -/
def bobAfterFailedQuit : serverstate :=
  (do_quit brokenPipeEnv bobSession).1

/-- The sample environment with a maildrop of `bob` of 101 messages of one octet each. -/
def largeEnv : Env :=
  { sampleEnv with
    maildrop := fun u =>
      if u = "bob" then List.replicate 101 { size := 1, contents := some [] } else [] }

/-- The session of `bob` right after `USER bob` and `PASS ok` in `largeEnv`. -/
def largeSession : serverstate :=
  (do_pass largeEnv
    { (do_user largeEnv { freshSession with words := ["USER", "bob"] }).1 with
      words := ["PASS", "ok"] }).1

/-- The session states reached from a successful `PASS` on a mailbox of at most one
hundred messages by any sequence of dispatched commands after each of which the phase is
still TRANSACTION. -/
inductive Reachable (env : Env) : serverstate → Prop where
  | pass (ss : serverstate) (password : String) :
      ss.state = State.AUTHORIZATIONPASS →
      ss.words[1]? = some password →
      env.is_valid_user ss.savedUser (some password) ≠ 0 →
      (env.maildrop ss.savedUser).length ≤ 100 →
      Reachable env (do_pass env ss).1
  | command (ss t : serverstate) (w : List String) (b : Bool) :
      Reachable env ss →
      handle_command env { ss with words := w } = some (t, b) →
      t.state = State.TRANSACTION →
      Reachable env t

/-- A TRANSACTION session in which the slot of 0-based index `k` carries a deletion mark
in the view and cell `k` of `deletedSet` holds 1. -/
def marks (ss : serverstate) (k : Nat) : Prop :=
  ss.state = State.TRANSACTION ∧ marked ss.mailList k = true ∧
    ss.deletedSet.read k = some 1

/-! ## Basic facts about the collaborators -/

theorem load_user_mail_length (env : Env) (user : String) :
    (load_user_mail env user).length = (env.maildrop user).length := by
  simp [load_user_mail]

theorem load_user_mail_not_deleted (env : Env) (user : String) :
    ∀ m ∈ load_user_mail env user, m.deleted = false := by
  intro m hm
  simp only [load_user_mail, List.mem_map] at hm
  obtain ⟨x, _, rfl⟩ := hm
  rfl

theorem filter_not_deleted_of_clear (l : mail_list_t) (h : ∀ m ∈ l, m.deleted = false) :
    l.filter (fun m => !m.deleted) = l := by
  rw [List.filter_eq_self]
  intro m hm
  simp [h m hm]

theorem zeroSet_read (i : Nat) (h : i < 100) : zeroSet.read i = some 0 := by
  unfold DeletedSet.read zeroSet
  rw [if_pos (Int.ofNat_nonneg i)]
  show (List.replicate 100 (0 : Int))[(i : Int).toNat]? = some 0
  rw [Int.toNat_ofNat, List.getElem?_replicate, if_pos h]

/-! ## Authentication -/

/-- C1: from phase AUTHORIZATION, `USER n` with a name the user check accepts followed by
`PASS s` with a secret valid for `n` returns 0 (success) twice, sends the two `+OK` replies
and nothing else, and ends in phase TRANSACTION with the mail list loaded for `n`, every
cell of `deletedSet` zero and no slot marked deleted, so that the non-deleted count is the
number `N` of messages in the store and every position `i + 1` with `i < N` retrieves the
`i`-th message of the store, with its size and contents. -/
theorem user_then_pass_enters_transaction (env : Env) (ss : serverstate) (n s : String)
    (w1 w2 : List String)
    (hphase : ss.state = State.AUTHORIZATION)
    (hn : env.is_valid_user n none ≠ 0)
    (hs : env.is_valid_user n (some s) ≠ 0)
    (hw1 : w1[1]? = some n) (hw2 : w2[1]? = some s) :
    (do_user env { ss with words := w1 }).2 = 0 ∧
    (do_pass env { (do_user env { ss with words := w1 }).1 with words := w2 }).2 = 0 ∧
    (do_pass env { (do_user env { ss with words := w1 }).1 with words := w2 }).1 =
      { ss with
        words := w2
        state := State.TRANSACTION
        savedUser := n
        mailList := load_user_mail env n
        deletedSet := zeroSet
        sent := ss.sent ++ ["+OK User is valid, proceed with password\r\n",
          "+OK Password is valid, mail loaded\r\n"]
        mailCalls := ss.mailCalls ++ [MailCall.load_user_mail n] } ∧
    (∀ i : Nat, i < 100 → zeroSet.read i = some 0) ∧
    (∀ m ∈ load_user_mail env n, m.deleted = false) ∧
    mail_list_length (load_user_mail env n) 0 = (env.maildrop n).length ∧
    (∀ (i : Nat) (h : i < (env.maildrop n).length),
      mail_list_retrieve (load_user_mail env n) ((i + 1 : Nat) - 1) = some i ∧
      mail_item_size (load_user_mail env n) i = ((env.maildrop n)[i]).size ∧
      mail_item_contents (load_user_mail env n) i = ((env.maildrop n)[i]).contents) := by
  refine ⟨?_, ?_, ?_, ?_, ?_, ?_, ?_⟩
  · simp [do_user, hphase, hw1, hn]
  · simp [do_user, do_pass, hphase, hw1, hw2, hn, hs, send_formatted, record]
  · simp [do_user, do_pass, hphase, hw1, hw2, hn, hs, send_formatted, record]
  · exact fun i hi => zeroSet_read i hi
  · exact load_user_mail_not_deleted env n
  · simp [mail_list_length, filter_not_deleted_of_clear _ (load_user_mail_not_deleted env n),
      load_user_mail_length]
  · intro i h
    have hlen : i < (load_user_mail env n).length := by rw [load_user_mail_length]; exact h
    refine ⟨?_, ?_, ?_⟩
    · simp [mail_list_retrieve, load_user_mail, h]
    · simp [mail_item_size, load_user_mail, h]
    · simp [mail_item_contents, load_user_mail, h]

/-- Witness of C1 in the sample environment: `USER bob` then `PASS ok`. -/
theorem user_then_pass_enters_transaction_witness :
    (freshSession.state = State.AUTHORIZATION ∧ sampleEnv.is_valid_user "bob" none ≠ 0 ∧
      sampleEnv.is_valid_user "bob" (some "ok") ≠ 0) ∧
    (do_pass sampleEnv { (do_user sampleEnv { freshSession with words := ["USER", "bob"] }).1
      with words := ["PASS", "ok"] }).2 = 0 :=
  ⟨by decide,
    (user_then_pass_enters_transaction sampleEnv freshSession "bob" "ok" ["USER", "bob"]
      ["PASS", "ok"] (by decide) (by decide) (by decide) (by decide) (by decide)).2.1⟩

/-- C2: in phase AUTHORIZATIONPASS, `PASS s` with a secret that is not valid for the pending
user sends exactly `-ERR Invalid password`, returns 1 (the session stays open) and sets the
phase to AUTHORIZATION, changing nothing else.  A `PASS` issued next, whatever its
arguments, sends exactly `-ERR Bad sequence of commands` and leaves the phase and the rest
of the session as they are; so does a `STAT` issued next once that reply is written, and it
then returns 1; in any case the phase after the `STAT` is still AUTHORIZATION. -/
theorem pass_mismatch_returns_to_authorization (env : Env) (ss : serverstate) (s : String)
    (hphase : ss.state = State.AUTHORIZATIONPASS)
    (hw : ss.words[1]? = some s)
    (hbad : env.is_valid_user ss.savedUser (some s) = 0) :
    do_pass env ss =
      ({ ss with state := State.AUTHORIZATION, sent := ss.sent ++ ["-ERR Invalid password\r\n"] },
        1) ∧
    (∀ w : List String,
      (do_pass env { (do_pass env ss).1 with words := w }).1 =
        { ss with
          words := w
          state := State.AUTHORIZATION
          sent := ss.sent ++ ["-ERR Invalid password\r\n", "-ERR Bad sequence of commands\r\n"] } ∧
      (do_pass env { (do_pass env ss).1 with words := w }).2 =
        (if env.send_result (ss.sent.length + 1) ≤ 0 then -1 else 1)) ∧
    (∀ w : List String,
      (do_stat env { (do_pass env ss).1 with words := w }).1.state = State.AUTHORIZATION ∧
      (0 < env.send_result (ss.sent.length + 1) →
        do_stat env { (do_pass env ss).1 with words := w } =
          ({ ss with
            words := w
            state := State.AUTHORIZATION
            sent := ss.sent ++ ["-ERR Invalid password\r\n",
              "-ERR Bad sequence of commands\r\n"] }, 1))) := by
  have h1 : do_pass env ss =
      ({ ss with state := State.AUTHORIZATION, sent := ss.sent ++ ["-ERR Invalid password\r\n"] },
        1) := by
    simp [do_pass, hphase, hw, hbad, send_formatted]
  refine ⟨h1, ?_, ?_⟩
  · intro w
    rw [h1]
    constructor
    · by_cases hr : env.send_result (ss.sent.length + 1) ≤ 0 <;>
        simp [do_pass, checkstate, send_formatted, hr]
    · by_cases hr : env.send_result (ss.sent.length + 1) ≤ 0 <;>
        simp [do_pass, checkstate, send_formatted, hr]
  · intro w
    rw [h1]
    constructor
    · by_cases hr : env.send_result (ss.sent.length + 1) ≤ 0 <;>
        simp [do_stat, checkstate, send_formatted, record, hr]
    · intro hr
      have hr' : ¬ env.send_result (ss.sent.length + 1) ≤ 0 := not_le.mpr hr
      simp [do_stat, checkstate, send_formatted, hr']

/-- Witness of C2 in the sample environment: `USER bob` was accepted, `PASS wrong` follows. -/
theorem pass_mismatch_returns_to_authorization_witness :
    ((do_user sampleEnv { freshSession with words := ["USER", "bob"] }).1.state
        = State.AUTHORIZATIONPASS ∧
      sampleEnv.is_valid_user "bob" (some "wrong") = 0) ∧
    (do_pass sampleEnv
      { (do_user sampleEnv { freshSession with words := ["USER", "bob"] }).1 with
        words := ["PASS", "wrong"] }).1.sent
      = ["+OK User is valid, proceed with password\r\n", "-ERR Invalid password\r\n"] :=
  ⟨by decide,
    congrArg (fun r => r.1.sent)
      (pass_mismatch_returns_to_authorization sampleEnv
        { (do_user sampleEnv { freshSession with words := ["USER", "bob"] }).1 with
          words := ["PASS", "wrong"] } "wrong" (by decide) (by decide) (by decide)).1⟩

/-! ## Commands outside their phase -/

/-- C3: in every session whose phase is not TRANSACTION, and whatever the arguments, each
of `STAT`, `LIST`, `RETR`, `DELE`, `RSET` and `NOOP` sends the single reply
`-ERR Bad sequence of commands` and, that reply being written, returns 1 (unsuccessful,
session kept) with the phase and every other field of the session unchanged and no call
made to the mail store. -/
theorem wrong_phase_bad_sequence (env : Env) (ss : serverstate)
    (hphase : ss.state ≠ State.TRANSACTION)
    (hwrite : 0 < env.send_result ss.sent.length) :
    do_stat env ss = ({ ss with sent := ss.sent ++ ["-ERR Bad sequence of commands\r\n"] }, 1) ∧
    do_list env ss =
      some ({ ss with sent := ss.sent ++ ["-ERR Bad sequence of commands\r\n"] }, 1) ∧
    do_retr env ss = ({ ss with sent := ss.sent ++ ["-ERR Bad sequence of commands\r\n"] }, 1) ∧
    do_dele env ss =
      some ({ ss with sent := ss.sent ++ ["-ERR Bad sequence of commands\r\n"] }, 1) ∧
    do_rset env ss = ({ ss with sent := ss.sent ++ ["-ERR Bad sequence of commands\r\n"] }, 1) ∧
    do_noop env ss = ({ ss with sent := ss.sent ++ ["-ERR Bad sequence of commands\r\n"] }, 1) := by
  have hr : ¬ env.send_result ss.sent.length ≤ 0 := not_le.mpr hwrite
  have hc : checkstate env ss State.TRANSACTION =
      ({ ss with sent := ss.sent ++ ["-ERR Bad sequence of commands\r\n"] }, 1) := by
    simp [checkstate, hphase, send_formatted, hr]
  refine ⟨?_, ?_, ?_, ?_, ?_, ?_⟩
  · simp [do_stat, hc]
  · simp [do_list, hc]
  · simp [do_retr, hc]
  · simp [do_dele, hc]
  · simp [do_rset, hc]
  · simp [do_noop, hc]

/-- Witness of C3: `STAT` in a freshly greeted session of the sample environment. -/
theorem wrong_phase_bad_sequence_witness :
    (freshSession.state ≠ State.TRANSACTION ∧
      0 < sampleEnv.send_result freshSession.sent.length) ∧
    do_stat sampleEnv freshSession =
      ({ freshSession with sent := ["-ERR Bad sequence of commands\r\n"] }, 1) :=
  ⟨by decide, (wrong_phase_bad_sequence sampleEnv freshSession (by decide) (by decide)).1⟩

/-! ## Counting by position -/

theorem marked_append_left (l : mail_list_t) (m : mail_item) (i : Nat) (h : i < l.length) :
    marked (l ++ [m]) i = marked l i := by
  simp [marked, List.getElem?_append_left h]

theorem marked_append_last (l : mail_list_t) (m : mail_item) :
    marked (l ++ [m]) l.length = m.deleted := by
  simp [marked]

theorem mail_item_size_append_left (l : mail_list_t) (m : mail_item) (i : Nat)
    (h : i < l.length) : mail_item_size (l ++ [m]) i = mail_item_size l i := by
  simp [mail_item_size, List.getElem?_append_left h]

theorem visible_append (l : mail_list_t) (m : mail_item) :
    visible (l ++ [m]) = visible l ++ (if m.deleted then [] else [l.length]) := by
  unfold visible
  rw [List.length_append, List.length_singleton, List.range_succ, List.filter_append]
  congr 1
  · apply List.filter_congr
    intro i hi
    rw [marked_append_left l m i (List.mem_range.mp hi)]
  · cases hm : m.deleted <;> simp [marked_append_last, hm]

theorem deletedIndices_append (l : mail_list_t) (m : mail_item) :
    deletedIndices (l ++ [m]) = deletedIndices l ++ (if m.deleted then [l.length] else []) := by
  unfold deletedIndices
  rw [List.length_append, List.length_singleton, List.range_succ, List.filter_append]
  congr 1
  · apply List.filter_congr
    intro i hi
    rw [marked_append_left l m i (List.mem_range.mp hi)]
  · cases hm : m.deleted <;> simp [marked_append_last, hm]

theorem visible_lt (l : mail_list_t) (i : Nat) (h : i ∈ visible l) : i < l.length := by
  unfold visible at h
  exact List.mem_range.mp (List.mem_filter.mp h).1

/-- The non-deleted count of the store model is the number of unmarked positions. -/
theorem mail_list_length_eq_visible (l : mail_list_t) :
    mail_list_length l 0 = (visible l).length := by
  induction l using List.reverseRecOn with
  | nil => rfl
  | append_singleton l m ih =>
    simp only [mail_list_length] at ih ⊢
    rw [visible_append, List.filter_append, List.length_append, List.length_append]
    simp only [ne_eq, not_true_eq_false, if_false] at ih ⊢
    rw [ih]
    cases hm : m.deleted <;> simp [hm]

/-- The total size of the store model is the sum of the sizes of the unmarked positions. -/
theorem mail_list_size_eq_visible (l : mail_list_t) :
    mail_list_size l = ((visible l).map (mail_item_size l)).sum := by
  induction l using List.reverseRecOn with
  | nil => rfl
  | append_singleton l m ih =>
    have hcongr : (visible l).map (mail_item_size (l ++ [m])) =
        (visible l).map (mail_item_size l) := by
      apply List.map_congr_left
      intro i hi
      exact mail_item_size_append_left l m i (visible_lt l i hi)
    simp only [mail_list_size] at ih ⊢
    rw [visible_append, List.filter_append, List.map_append, List.sum_append, List.map_append,
      List.sum_append, hcongr, ih]
    cases hm : m.deleted <;> simp [hm, mail_item_size]

/-- Marked and unmarked positions partition the `N` positions of the view. -/
theorem visible_add_deleted (l : mail_list_t) :
    (visible l).length + (deletedIndices l).length = l.length := by
  induction l using List.reverseRecOn with
  | nil => rfl
  | append_singleton l m ih =>
    rw [visible_append, deletedIndices_append, List.length_append, List.length_append,
      List.length_append, List.length_singleton]
    cases hm : m.deleted <;> simp <;> omega

/-! ## STAT -/

/-- The session `STAT` leaves behind in phase TRANSACTION. -/
theorem do_stat_transaction (env : Env) (ss : serverstate)
    (hphase : ss.state = State.TRANSACTION) :
    do_stat env ss =
      ({ ss with
        sent := ss.sent ++ ["+OK " ++ toString (visible ss.mailList).length ++ " "
          ++ toString ((visible ss.mailList).map (mail_item_size ss.mailList)).sum ++ "\r\n"]
        mailCalls := ss.mailCalls ++ [MailCall.mail_list_length 0, MailCall.mail_list_size] },
        0) := by
  simp [do_stat, checkstate, hphase, record, send_formatted, mail_list_length_eq_visible,
    mail_list_size_eq_visible]

/-- C9: in phase TRANSACTION over a view of `N` slots of which the set `D` is marked
deleted, `STAT` returns 0 and sends exactly `+OK c s` where `c` is the number of unmarked
positions, `c = N - |D|`, and `s` is the sum of the sizes of the unmarked positions; the
phase, the arguments, the view and the deletion marks are unchanged (only the two ghost
records grow: one reply, and the calls `mail_list_length(.., 0)` and `mail_list_size`). -/
theorem stat_reports_visible (env : Env) (ss : serverstate)
    (hphase : ss.state = State.TRANSACTION) :
    do_stat env ss =
      ({ ss with
        sent := ss.sent ++ ["+OK " ++ toString (visible ss.mailList).length ++ " "
          ++ toString ((visible ss.mailList).map (mail_item_size ss.mailList)).sum ++ "\r\n"]
        mailCalls := ss.mailCalls ++ [MailCall.mail_list_length 0, MailCall.mail_list_size] },
        0) ∧
    (visible ss.mailList).length = ss.mailList.length - (deletedIndices ss.mailList).length := by
  constructor
  · simp [do_stat, checkstate, hphase, record, send_formatted, mail_list_length_eq_visible,
      mail_list_size_eq_visible]
  · have := visible_add_deleted ss.mailList
    omega

/-- Witness of C9: with messages of 120 and 80 octets `STAT` answers `+OK 2 200`, and
after `DELE 1` it answers `+OK 1 80`. -/
theorem stat_reports_visible_witness :
    bobSession.state = State.TRANSACTION ∧
    (do_stat sampleEnv bobSession).1.sent.getLast? = some "+OK 2 200\r\n" ∧
    (bobAfterDele1.map (fun r => (do_stat sampleEnv r.1).1.sent.getLast?))
      = some (some "+OK 1 80\r\n") :=
  ⟨by decide,
    (congrArg (fun r => r.1.sent.getLast?)
      (stat_reports_visible sampleEnv bobSession (by decide)).1).trans (by decide),
    by decide⟩

/-! ## LIST without argument -/

theorem visible_mem (l : mail_list_t) (i : Nat) :
    i ∈ visible l ↔ i < l.length ∧ marked l i = false := by
  simp [visible, List.mem_filter]

theorem visible_increasing (l : mail_list_t) : List.Pairwise (fun a b => a < b) (visible l) :=
  List.Pairwise.filter _ (List.pairwise_lt_range _)

theorem retrieve_unmarked (l : mail_list_t) (i : Nat) (hi : i < l.length)
    (hm : marked l i = false) : mail_list_retrieve l (i : Int) = some i := by
  have hget : l[i]? = some l[i] := List.getElem?_eq_getElem hi
  rw [marked, hget] at hm
  simp only at hm
  simp [mail_list_retrieve, hget, hm]

/-- The listing loop on a consistent session: it runs to its end, prints one line for each
unmarked index it visits, in the order visited, and touches neither the view nor the
marks. -/
theorem do_list_loop_consistent (env : Env) (idx : List Nat) :
    ∀ ss : serverstate, consistent ss → (∀ i ∈ idx, i < ss.mailList.length) →
      do_list_loop env idx ss =
        some ({ ss with
          sent := ss.sent
            ++ (idx.filter (fun i => !marked ss.mailList i)).map (list_line ss.mailList)
          mailCalls := ss.mailCalls
            ++ (idx.filter (fun i => !marked ss.mailList i)).flatMap list_calls }, none) := by
  induction idx with
  | nil => intro ss _ _; simp [do_list_loop]
  | cons i rest ih =>
    intro ss hc hidx
    have hi : i < ss.mailList.length := hidx i (List.mem_cons_self i rest)
    have hrest : ∀ k ∈ rest, k < ss.mailList.length :=
      fun k hk => hidx k (List.mem_cons_of_mem i hk)
    have hread := hc i hi
    cases hm : marked ss.mailList i with
    | true =>
      rw [hm] at hread
      rw [do_list_loop, hread]
      simp only [if_true, ne_eq, not_true_eq_false, if_false]
      rw [ih ss hc hrest]
      simp [hm]
    | false =>
      rw [hm] at hread
      rw [do_list_loop, hread]
      have hret : mail_list_retrieve (record ss (MailCall.mail_list_retrieve i)).mailList
          (i : Int) = some i := retrieve_unmarked ss.mailList i hi hm
      simp only [Bool.false_eq_true, if_false, ne_eq, zero_ne_one, not_false_eq_true, if_true,
        hret]
      have hc1 : consistent (send_formatted env
          (record (record ss (MailCall.mail_list_retrieve i)) (MailCall.mail_item_size i))
          (toString (i + 1) ++ " " ++ toString (mail_item_size
            (record (record ss (MailCall.mail_list_retrieve i))
              (MailCall.mail_item_size i)).mailList i) ++ "\r\n")).1 := fun k hk => hc k hk
      rw [ih _ hc1 hrest]
      simp [hm, record, send_formatted, list_line, list_calls]

/-- The session a `LIST` without argument leaves behind in phase TRANSACTION when
`deletedSet` agrees with the view. -/
theorem do_list_no_arg (env : Env) (ss : serverstate)
    (hphase : ss.state = State.TRANSACTION)
    (hcons : consistent ss)
    (harg : ss.words[1]? = none) :
    do_list env ss =
      some ({ ss with
        sent := ss.sent
          ++ (["+OK " ++ toString (visible ss.mailList).length ++ " messages ("
              ++ toString ((visible ss.mailList).map (mail_item_size ss.mailList)).sum
              ++ " octets)\r\n"]
            ++ (visible ss.mailList).map (list_line ss.mailList) ++ [".\r\n"])
        mailCalls := ss.mailCalls
          ++ ([MailCall.mail_list_length 0, MailCall.mail_list_length 1, MailCall.mail_list_size]
            ++ (visible ss.mailList).flatMap list_calls) }, 0) := by
  have hloop := do_list_loop_consistent env (List.range ss.mailList.length)
    { ss with
      sent := ss.sent ++ ["+OK " ++ toString (visible ss.mailList).length ++ " messages ("
        ++ toString ((visible ss.mailList).map (mail_item_size ss.mailList)).sum
        ++ " octets)\r\n"]
      mailCalls := ss.mailCalls ++ [MailCall.mail_list_length 0, MailCall.mail_list_length 1,
        MailCall.mail_list_size] }
    (fun k hk => hcons k hk) (fun k hk => List.mem_range.mp hk)
  simp only [do_list, checkstate, hphase, ne_eq, not_true_eq_false, if_false, record,
    send_formatted, harg, mail_list_length_eq_visible, mail_list_size_eq_visible]
  simp only [mail_list_length, List.append_assoc, List.singleton_append, zero_ne_one,
    OfNat.ofNat_ne_zero, one_ne_zero, ne_eq, not_false_eq_true, if_true, List.cons_append,
    List.nil_append, hphase] at hloop ⊢
  rw [hloop]
  simp [visible]

/-- `LIST` without argument where the code stays within `deletedSet`: in phase
TRANSACTION, with `deletedSet` in agreement with the view, `LIST` without
argument returns 0 and sends the header `+OK c messages (s octets)`, `c` and `s` being the
count and total size of the unmarked positions, then one line `p size(p)` for each unmarked
position `p = i + 1`, then the terminator `.`; the indices `i` listed are exactly the
unmarked ones, each once and in increasing order, so positions are those of the view and
are not renumbered, and a marked position gets no line.  View, marks and phase are
unchanged. -/
theorem list_all_lists_visible (env : Env) (ss : serverstate)
    (hphase : ss.state = State.TRANSACTION)
    (hcons : consistent ss)
    (harg : ss.words[1]? = none) :
    do_list env ss =
      some ({ ss with
        sent := ss.sent
          ++ (["+OK " ++ toString (visible ss.mailList).length ++ " messages ("
              ++ toString ((visible ss.mailList).map (mail_item_size ss.mailList)).sum
              ++ " octets)\r\n"]
            ++ (visible ss.mailList).map (list_line ss.mailList) ++ [".\r\n"])
        mailCalls := ss.mailCalls
          ++ ([MailCall.mail_list_length 0, MailCall.mail_list_length 1, MailCall.mail_list_size]
            ++ (visible ss.mailList).flatMap list_calls) }, 0) ∧
    (∀ i : Nat, i ∈ visible ss.mailList ↔ i < ss.mailList.length ∧ marked ss.mailList i = false) ∧
    List.Pairwise (fun a b => a < b) (visible ss.mailList) := by
  refine ⟨do_list_no_arg env ss hphase hcons harg, ?_, ?_⟩
  · intro i
    simp [visible, List.mem_filter]
  · exact List.Pairwise.filter _ (List.pairwise_lt_range _)

/-- Example: after `DELE 1` on the two messages of 120 and 80 octets, `LIST` sends
`+OK 1 messages (80 octets)`, `2 80` and `.`. -/
theorem list_all_lists_visible_witness :
    (bobDeleted1.state = State.TRANSACTION ∧ bobDeleted1.mailList.length = 2 ∧
      marked bobDeleted1.mailList 0 = true) ∧
    (do_list sampleEnv { bobDeleted1 with words := ["LIST"] }).map (fun r => r.1.sent.drop 3)
      = some ["+OK 1 messages (80 octets)\r\n", "2 80\r\n", ".\r\n"] :=
  ⟨by decide,
    (congrArg (Option.map (fun r => r.1.sent.drop 3))
      (list_all_lists_visible sampleEnv { bobDeleted1 with words := ["LIST"] } (by decide)
        (by unfold consistent; decide) (by decide)).1).trans (by decide)⟩

/-- C10, evaluation: the session of `bob` right after `PASS` on a maildrop of 101
messages, none deleted.  The listing loop of `LIST` runs `i` up to 100 and reads
`deletedSet[100]`, outside `int deletedSet[100]`: the handler has no defined result, so
the header, the 101 lines and the terminator the listing should consist of are not
produced. -/
theorem list_reads_past_deletion_array :
    largeSession.state = State.TRANSACTION ∧
    largeSession.mailList.length = 101 ∧
    visible largeSession.mailList = List.range 101 ∧
    mail_list_length largeSession.mailList 1 = 101 ∧
    largeSession.deletedSet.read 100 = none ∧
    do_list largeEnv { largeSession with words := ["LIST"] } = none := by
  decide

/-! ## QUIT -/

theorem handle_line_quit (env : Env) (ss : serverstate) :
    handle_line env ss "QUIT\r\n".toList = handle_command env { ss with words := ["QUIT"] } := by
  rfl

/-- C6: in phase TRANSACTION, `QUIT` sets the phase to UPDATE, calls `mail_list_destroy`
exactly once, on the session's mail list as it stands with the deletion marks of that
moment, sends `+OK Service closing transmission channel` and, that reply being written,
returns -1: the dispatcher leaves the loop and no later line is read. -/
theorem quit_in_transaction_commits (env : Env) (ss : serverstate)
    (hphase : ss.state = State.TRANSACTION)
    (hwrite : 0 ≤ env.send_result ss.sent.length) :
    do_quit env ss =
      ({ ss with
        state := State.UPDATE
        sent := ss.sent ++ ["+OK Service closing transmission channel\r\n"]
        mailCalls := ss.mailCalls ++ [MailCall.mail_list_destroy ss.mailList] }, -1) ∧
    (∀ command : String, ss.words[0]? = some command → strcasecmp command "QUIT" = 0 →
      handle_command env ss = some ((do_quit env ss).1, true)) ∧
    (∀ rest : List String,
      handle_client_loop env ("QUIT\r\n" :: rest) ss =
        some { ss with
          words := ["QUIT"]
          state := State.UPDATE
          sent := ss.sent ++ ["+OK Service closing transmission channel\r\n"]
          mailCalls := ss.mailCalls ++ [MailCall.mail_list_destroy ss.mailList] }) := by
  have hq : ∀ w : List String, do_quit env { ss with words := w } =
      ({ ss with
        words := w
        state := State.UPDATE
        sent := ss.sent ++ ["+OK Service closing transmission channel\r\n"]
        mailCalls := ss.mailCalls ++ [MailCall.mail_list_destroy ss.mailList] }, -1) := by
    intro w
    simp [do_quit, hphase, record, send_formatted, hwrite]
  refine ⟨?_, ?_, ?_⟩
  · exact hq ss.words
  · intro command hcmd hcase
    have := hq ss.words
    simp only [handle_command, hcmd, hcase, if_true]
    rw [show ({ ss with words := ss.words } : serverstate) = ss from rfl] at this
    rw [this]
    rfl
  · intro rest
    rw [handle_client_loop, handle_line_quit]
    have hcase : strcasecmp "QUIT" "QUIT" = 0 := by decide
    simp only [handle_command, List.getElem?_cons_zero, hcase, if_true, hq ["QUIT"]]
    rfl

/-- Witness of C6: `QUIT` in the session of `bob` after `DELE 1`; the list handed to
`mail_list_destroy` carries the mark of position 1. -/
theorem quit_in_transaction_commits_witness :
    (bobDeleted1.state = State.TRANSACTION ∧
      0 ≤ sampleEnv.send_result bobDeleted1.sent.length) ∧
    (do_quit sampleEnv bobDeleted1).1.mailCalls.getLast?
      = some (MailCall.mail_list_destroy
        [{ size := 120, contents := some ["first\r\n"], deleted := true },
          { size := 80, contents := some ["second\r\n"], deleted := false }]) :=
  ⟨by decide,
    (congrArg (fun r => r.1.mailCalls.getLast?)
      (quit_in_transaction_commits sampleEnv bobDeleted1 (by decide) (by decide)).1).trans
      (by decide)⟩

/-- C7, evaluation: `QUIT` in a freshly greeted session (phase AUTHORIZATION, no mailbox
ever loaded) still calls `mail_list_destroy` on the `mailList` field, and leaves the phase
at AUTHORIZATION. -/
theorem quit_outside_transaction_destroys :
    freshSession.state = State.AUTHORIZATION ∧
    (do_quit sampleEnv freshSession).1.mailCalls
      = [MailCall.mail_list_destroy freshSession.mailList] ∧
    (do_quit sampleEnv freshSession).1.state = State.AUTHORIZATION := by
  decide

/-- C8, evaluation: when the write of the reply to `QUIT` fails (`send_formatted` returns
-1), `do_quit` returns 1, not -1; the loop goes on and the next line, `NOOP`, is processed
in phase UPDATE. -/
theorem quit_write_failure_keeps_session :
    lostReplyEnv.send_result bobSession.sent.length = -1 ∧
    (do_quit lostReplyEnv bobSession).2 = 1 ∧
    (handle_client_loop lostReplyEnv ["QUIT\r\n", "NOOP\r\n"] bobSession).map
        (fun s => (s.state, s.sent.drop 2))
      = some (State.UPDATE, ["+OK Service closing transmission channel\r\n",
          "-ERR Bad sequence of commands\r\n"]) := by
  decide

/-! ## RSET -/

theorem length_filter_deleted (l : mail_list_t) :
    (l.filter (fun m => m.deleted)).length = (deletedIndices l).length := by
  induction l using List.reverseRecOn with
  | nil => rfl
  | append_singleton l m ih =>
    rw [deletedIndices_append, List.filter_append, List.length_append, List.length_append, ih]
    cases hm : m.deleted <;> simp [hm]

theorem marked_undelete (l : mail_list_t) (i : Nat) :
    marked (mail_list_undelete l).1 i = false := by
  simp only [marked, mail_list_undelete, List.getElem?_map]
  cases l[i]? <;> rfl

theorem mail_item_size_undelete (l : mail_list_t) (i : Nat) :
    mail_item_size (mail_list_undelete l).1 i = mail_item_size l i := by
  simp only [mail_item_size, mail_list_undelete, List.getElem?_map]
  cases l[i]? <;> rfl

theorem visible_undelete (l : mail_list_t) :
    visible (mail_list_undelete l).1 = List.range l.length := by
  unfold visible
  rw [List.filter_eq_self.mpr]
  · simp [mail_list_undelete]
  · intro i _
    simp [marked_undelete]

theorem undelete_unmarked (l : mail_list_t) (h : deletedIndices l = []) :
    (mail_list_undelete l).1 = l := by
  have hfilter : (l.filter (fun m => m.deleted)).length = 0 := by
    rw [length_filter_deleted, h]; rfl
  have hnone : ∀ m ∈ l, m.deleted = false := by
    intro m hm
    cases hd : m.deleted with
    | false => rfl
    | true =>
      have : m ∈ l.filter (fun m => m.deleted) := List.mem_filter.mpr ⟨hm, by simpa using hd⟩
      rw [List.length_eq_zero.mp hfilter] at this
      exact absurd this (List.not_mem_nil m)
  simp only [mail_list_undelete]
  conv_rhs => rw [← List.map_id l]
  apply List.map_congr_left
  intro m hm
  cases m with
  | mk size contents deleted =>
    have := hnone _ hm
    simp only at this
    simp [this]

/-- The session `RSET` leaves behind in phase TRANSACTION. -/
theorem do_rset_transaction (env : Env) (ss : serverstate)
    (hphase : ss.state = State.TRANSACTION) :
    do_rset env ss =
      ({ ss with
        mailList := (mail_list_undelete ss.mailList).1
        deletedSet := zeroSet
        sent := ss.sent ++ ["+OK " ++ toString (deletedIndices ss.mailList).length
          ++ " messages restored\r\n"]
        mailCalls := ss.mailCalls ++ [MailCall.mail_list_undelete] }, 0) := by
  simp [do_rset, checkstate, hphase, record, send_formatted, mail_list_undelete,
    length_filter_deleted]

theorem consistent_after_rset (env : Env) (ss : serverstate)
    (hphase : ss.state = State.TRANSACTION) (hcap : ss.mailList.length ≤ 100) :
    consistent (do_rset env ss).1 := by
  rw [do_rset_transaction env ss hphase]
  intro i hi
  have hlen : i < 100 := by
    simp only [mail_list_undelete, List.length_map] at hi
    omega
  show zeroSet.read i = some (if marked (mail_list_undelete ss.mailList).1 i then 1 else 0)
  rw [zeroSet_read i hlen, marked_undelete]
  rfl

/-- C5: in phase TRANSACTION with exactly `k` positions marked deleted, `RSET` returns 0,
sends `+OK k messages restored`, clears every mark of the view and every cell of
`deletedSet`, and keeps the slots, their order and their sizes.  Afterwards `STAT` answers
`+OK N S` with `N` the number of slots and `S` the sum of all sizes, and `LIST` announces
`N` messages of `S` octets and, the mailbox being within the hundred cells of `deletedSet`,
lists every position 1..N before the terminator.  With `k = 0` the reply carries 0 and the
mail list is the same as before. -/
theorem rset_restores_all (env : Env) (ss : serverstate)
    (hphase : ss.state = State.TRANSACTION) :
    do_rset env ss =
      ({ ss with
        mailList := (mail_list_undelete ss.mailList).1
        deletedSet := zeroSet
        sent := ss.sent ++ ["+OK " ++ toString (deletedIndices ss.mailList).length
          ++ " messages restored\r\n"]
        mailCalls := ss.mailCalls ++ [MailCall.mail_list_undelete] }, 0) ∧
    (∀ i : Nat, marked (do_rset env ss).1.mailList i = false) ∧
    (∀ i : Nat, i < 100 → (do_rset env ss).1.deletedSet.read i = some 0) ∧
    (do_rset env ss).1.mailList.length = ss.mailList.length ∧
    (∀ i : Nat, mail_item_size (do_rset env ss).1.mailList i = mail_item_size ss.mailList i) ∧
    (∀ w : List String,
      (do_stat env { (do_rset env ss).1 with words := w }).1.sent =
        (do_rset env ss).1.sent ++ ["+OK " ++ toString ss.mailList.length ++ " "
          ++ toString ((List.range ss.mailList.length).map (mail_item_size ss.mailList)).sum
          ++ "\r\n"]) ∧
    (∀ w : List String, w[1]? = none → ss.mailList.length ≤ 100 →
      (do_list env { (do_rset env ss).1 with words := w }).map (fun r => (r.1.sent, r.2)) =
        some ((do_rset env ss).1.sent
          ++ (["+OK " ++ toString ss.mailList.length ++ " messages ("
              ++ toString ((List.range ss.mailList.length).map (mail_item_size ss.mailList)).sum
              ++ " octets)\r\n"]
            ++ (List.range ss.mailList.length).map (list_line ss.mailList) ++ [".\r\n"]), 0)) ∧
    (deletedIndices ss.mailList = [] →
      (do_rset env ss).1.sent = ss.sent ++ ["+OK 0 messages restored\r\n"] ∧
      (do_rset env ss).1.mailList = ss.mailList) := by
  have hr := do_rset_transaction env ss hphase
  have hsizes : (List.range ss.mailList.length).map
      (mail_item_size (mail_list_undelete ss.mailList).1) =
      (List.range ss.mailList.length).map (mail_item_size ss.mailList) :=
    List.map_congr_left (fun i _ => mail_item_size_undelete ss.mailList i)
  have hlines : (List.range ss.mailList.length).map
      (list_line (mail_list_undelete ss.mailList).1) =
      (List.range ss.mailList.length).map (list_line ss.mailList) :=
    List.map_congr_left (fun i _ => by simp only [list_line, mail_item_size_undelete])
  have hlen : (mail_list_undelete ss.mailList).1.length = ss.mailList.length := by
    simp [mail_list_undelete]
  refine ⟨hr, ?_, ?_, ?_, ?_, ?_, ?_, ?_⟩
  · intro i
    rw [hr]
    exact marked_undelete ss.mailList i
  · intro i hi
    rw [hr]
    exact zeroSet_read i hi
  · rw [hr]
    exact hlen
  · intro i
    rw [hr]
    exact mail_item_size_undelete ss.mailList i
  · intro w
    have hst := do_stat_transaction env { (do_rset env ss).1 with words := w }
      (by rw [hr]; exact hphase)
    rw [hst, hr]
    simp only [visible_undelete, List.length_range, hsizes]
  · intro w hw hcap
    have hcons : consistent { (do_rset env ss).1 with words := w } :=
      consistent_after_rset env ss hphase hcap
    have hl := do_list_no_arg env { (do_rset env ss).1 with words := w }
      (by rw [hr]; exact hphase) hcons hw
    rw [hl, hr]
    simp only [visible_undelete, List.length_range, hsizes, hlines, Option.map_some']
  · intro hk
    rw [hr]
    refine ⟨?_, undelete_unmarked ss.mailList hk⟩
    show ss.sent ++ ["+OK " ++ toString (deletedIndices ss.mailList).length
      ++ " messages restored\r\n"] = ss.sent ++ ["+OK 0 messages restored\r\n"]
    rw [hk]
    rfl

/-- Witness of C5: `RSET` in the session of `bob` after `DELE 1` restores one message. -/
theorem rset_restores_all_witness :
    bobDeleted1.state = State.TRANSACTION ∧
    (do_rset sampleEnv bobDeleted1).1.sent.getLast? = some "+OK 1 messages restored\r\n" :=
  ⟨by decide,
    (congrArg (fun r => r.1.sent.getLast?)
      (rset_restores_all sampleEnv bobDeleted1 (by decide)).1).trans (by decide)⟩

/-! ## Deletion marks -/

theorem int_pred_eq (j : Int) (h1 : -(2 ^ 31) < j) (h2 : j < 2 ^ 31) : int_pred j = j - 1 := by
  unfold int_pred
  omega

theorem atoi_range (s : String) : -(2 ^ 31) ≤ atoi s ∧ atoi s < 2 ^ 31 := by
  have h : ∀ l : Int, -(2 ^ 31) ≤ (l + 2 ^ 31) % 2 ^ 32 - 2 ^ 31 ∧
      (l + 2 ^ 31) % 2 ^ 32 - 2 ^ 31 < 2 ^ 31 := by
    intro l
    omega
  exact h _

theorem int_pred_cell (j : Int) (k : Nat) (h1 : -(2 ^ 31) ≤ j) (h2 : j < 2 ^ 31)
    (h : int_pred j = (k : Int)) (hk : k < 100) : j = (k : Int) + 1 := by
  unfold int_pred at h
  omega

theorem retrieve_some (l : mail_list_t) (p : Int) (it : mail_item_t)
    (h : mail_list_retrieve l p = some it) :
    0 ≤ p ∧ it = p.toNat ∧ it < l.length ∧ marked l it = false := by
  unfold mail_list_retrieve at h
  by_cases hp : 0 ≤ p
  · rw [if_pos hp] at h
    cases hget : l[p.toNat]? with
    | none => rw [hget] at h; exact absurd h (by simp)
    | some m =>
      rw [hget] at h
      simp only at h
      cases hd : m.deleted with
      | true => rw [hd] at h; exact absurd h (by simp)
      | false =>
        rw [hd] at h
        have hit : p.toNat = it := by simpa using h
        have hlt : p.toNat < l.length := (List.getElem?_eq_some.mp hget).1
        refine ⟨hp, hit.symm, hit ▸ hlt, ?_⟩
        rw [← hit, marked, hget]
        exact hd
  · rw [if_neg hp] at h
    exact absurd h (by simp)

theorem retrieve_marked (l : mail_list_t) (k : Nat) (h : marked l k = true) :
    mail_list_retrieve l (k : Int) = none := by
  unfold marked at h
  cases hget : l[k]? with
  | none => rw [hget] at h; exact absurd h (by simp)
  | some m =>
    rw [hget] at h
    simp only at h
    simp [mail_list_retrieve, hget, h]

theorem marked_lt (l : mail_list_t) (k : Nat) (h : marked l k = true) : k < l.length := by
  unfold marked at h
  cases hget : l[k]? with
  | none => rw [hget] at h; exact absurd h (by simp)
  | some m => exact (List.getElem?_eq_some.mp hget).1

theorem marked_delete (l : mail_list_t) (it i : Nat) (hit : it < l.length) :
    marked (mail_item_delete l it) i = if i = it then true else marked l i := by
  unfold marked mail_item_delete
  by_cases h : i = it
  · subst h
    rw [if_pos rfl, List.getElem?_modify_eq, List.getElem?_eq_getElem hit]
    rfl
  · rw [if_neg h, List.getElem?_modify_ne _ _ (Ne.symm h)]

theorem read_nat (d : DeletedSet) (k : Nat) : d.read (k : Int) = d.val[k]? := by
  simp [DeletedSet.read]

theorem read_some_lt (d : DeletedSet) (k : Nat) (v : Int) (h : d.read (k : Int) = some v) :
    k < 100 := by
  rw [read_nat] at h
  have := (List.getElem?_eq_some.mp h).1
  rw [d.property] at this
  exact this

theorem write_nat (d : DeletedSet) (k : Nat) (v : Int) (hk : k < 100) :
    ∃ d1 : DeletedSet, d.write (k : Int) v = some d1 ∧ d1.val = d.val.set k v := by
  have hcond : 0 ≤ (k : Int) ∧ (k : Int).toNat < 100 := ⟨Int.ofNat_nonneg k, by simpa using hk⟩
  refine ⟨⟨d.val.set k v, by rw [List.length_set]; exact d.property⟩, ?_, rfl⟩
  unfold DeletedSet.write
  rw [if_pos hcond]
  simp

theorem ok_deleted_ne_no_such (x y : String) :
    "+OK message " ++ x ++ y ≠ "-ERR no such message\r\n" := by
  intro h
  have h2 := congrArg String.data h
  rw [String.data_append, String.data_append] at h2
  simp at h2

theorem ok_deleted_ne_bad_syntax (x y : String) :
    "+OK message " ++ x ++ y ≠ "-ERR Syntax error in parameters or arguments\r\n" := by
  intro h
  have h2 := congrArg String.data h
  rw [String.data_append, String.data_append] at h2
  simp at h2

theorem hides_of_same_view (s t : serverstate) (k : Nat) (hs : t.state = s.state)
    (hm : t.mailList = s.mailList) (hd : t.deletedSet = s.deletedSet) (h : hides s k) :
    hides t k := by
  obtain ⟨h1, h2, h3⟩ := h
  refine ⟨hs.trans h1, ?_, hm ▸ h3⟩
  intro i hi
  rw [hm] at hi ⊢
  rw [hd]
  exact h2 i hi

/-- A `DELE` whose position is retrieved: the slot is marked, `deletedSet` records it, and
the reply is `+OK message j deleted`. -/
theorem do_dele_found (env : Env) (ss : serverstate) (w : String) (it : mail_item_t)
    (hphase : ss.state = State.TRANSACTION) (hcons : consistent ss)
    (harg : ss.words[1]? = some w)
    (hret : mail_list_retrieve ss.mailList (int_pred (atoi w)) = some it) :
    ∃ d1 : DeletedSet, d1.val = ss.deletedSet.val.set it 1 ∧
      do_dele env ss =
        some ({ ss with
          mailList := mail_item_delete ss.mailList it
          deletedSet := d1
          sent := ss.sent ++ ["+OK message " ++ toString (atoi w) ++ " deleted\r\n"]
          mailCalls := ss.mailCalls ++ [MailCall.mail_list_retrieve (int_pred (atoi w)),
            MailCall.mail_item_delete it] }, 0) := by
  obtain ⟨hp, hit, hlt, hm⟩ := retrieve_some _ _ _ hret
  have hcast : int_pred (atoi w) = (it : Int) := by rw [hit, Int.toNat_of_nonneg hp]
  have hread := hcons it hlt
  have h100 : it < 100 := read_some_lt _ _ _ hread
  obtain ⟨d1, hw, hval⟩ := write_nat ss.deletedSet it 1 h100
  refine ⟨d1, hval, ?_⟩
  rw [hcast] at hret
  simp [do_dele, checkstate, hphase, harg, record, send_formatted, hcast, hret, hw]

theorem consistent_after_mark (ss : serverstate) (it : Nat) (d1 : DeletedSet)
    (l1 : mail_list_t) (hl : l1 = mail_item_delete ss.mailList it)
    (hval : d1.val = ss.deletedSet.val.set it 1) (hlt : it < ss.mailList.length)
    (hcons : consistent ss) (t : serverstate) (htm : t.mailList = l1)
    (htd : t.deletedSet = d1) : consistent t := by
  intro i hi
  rw [htm, hl] at hi ⊢
  rw [htd]
  have hlen : (mail_item_delete ss.mailList it).length = ss.mailList.length := by
    simp [mail_item_delete]
  rw [hlen] at hi
  rw [marked_delete _ _ _ hlt, read_nat, hval, List.getElem?_set]
  have h100 : it < 100 := read_some_lt _ _ _ (hcons it hlt)
  by_cases h : i = it
  · subst h
    simp [ss.deletedSet.property, h100]
  · rw [if_neg (Ne.symm h), if_neg h, ← read_nat]
    exact hcons i hi

/-! ## Commands that keep the view -/

theorem send_lines_view (env : Env) (lines : List String) :
    ∀ ss : serverstate, (send_lines env ss lines).state = ss.state ∧
      (send_lines env ss lines).mailList = ss.mailList ∧
      (send_lines env ss lines).deletedSet = ss.deletedSet := by
  induction lines with
  | nil => intro ss; exact ⟨rfl, rfl, rfl⟩
  | cons line rest ih =>
    intro ss
    have h := ih (send_formatted env ss (c_string line)).1
    simp only [send_lines, List.foldl_cons] at h ⊢
    exact h

theorem syntax_error_view (env : Env) (ss : serverstate) :
    (syntax_error env ss).1.state = ss.state ∧ (syntax_error env ss).1.mailList = ss.mailList ∧
      (syntax_error env ss).1.deletedSet = ss.deletedSet := by
  simp only [syntax_error]
  by_cases h : (send_formatted env ss "-ERR Syntax error in parameters or arguments\r\n").2 ≤ 0
  · rw [if_pos h]
    exact ⟨rfl, rfl, rfl⟩
  · rw [if_neg h]
    exact ⟨rfl, rfl, rfl⟩

theorem do_stat_view (env : Env) (ss : serverstate) (hphase : ss.state = State.TRANSACTION) :
    (do_stat env ss).1.state = ss.state ∧ (do_stat env ss).1.mailList = ss.mailList ∧
      (do_stat env ss).1.deletedSet = ss.deletedSet := by
  rw [do_stat_transaction env ss hphase]
  exact ⟨rfl, rfl, rfl⟩

theorem do_noop_view (env : Env) (ss : serverstate) (hphase : ss.state = State.TRANSACTION) :
    (do_noop env ss).1.state = ss.state ∧ (do_noop env ss).1.mailList = ss.mailList ∧
      (do_noop env ss).1.deletedSet = ss.deletedSet := by
  simp [do_noop, checkstate, hphase, send_formatted]

theorem do_retr_view (env : Env) (ss : serverstate) (hphase : ss.state = State.TRANSACTION) :
    (do_retr env ss).1.state = ss.state ∧ (do_retr env ss).1.mailList = ss.mailList ∧
      (do_retr env ss).1.deletedSet = ss.deletedSet := by
  have hc : checkstate env ss State.TRANSACTION = (ss, 0) := by simp [checkstate, hphase]
  unfold do_retr
  simp only [hc, zero_ne_one, if_false]
  cases ss.words[1]? with
  | none => exact syntax_error_view env ss
  | some w =>
    simp only
    cases hret : mail_list_retrieve (record ss (MailCall.mail_list_retrieve (int_pred (atoi w)))).mailList
        (int_pred (atoi w)) with
    | none => exact ⟨rfl, rfl, rfl⟩
    | some it =>
      simp only
      cases hcont : mail_item_contents (record (send_formatted env
          (record (record ss (MailCall.mail_list_retrieve (int_pred (atoi w))))
            (MailCall.mail_item_size it))
          ("+OK " ++ toString (mail_item_size (record (record ss
            (MailCall.mail_list_retrieve (int_pred (atoi w)))) (MailCall.mail_item_size it)).mailList it)
            ++ " octets\r\n")).1 (MailCall.mail_item_contents it)).mailList it with
      | none => exact ⟨rfl, rfl, rfl⟩
      | some lines =>
        simp only
        exact send_lines_view env lines _

theorem checkstate_transaction (env : Env) (ss : serverstate)
    (hphase : ss.state = State.TRANSACTION) :
    checkstate env ss State.TRANSACTION = (ss, 0) := by
  simp [checkstate, hphase]

/-- `LIST p` on a position that is absent or marked. -/
theorem do_list_arg_absent (env : Env) (ss : serverstate) (w : String)
    (hphase : ss.state = State.TRANSACTION) (harg : ss.words[1]? = some w)
    (hret : mail_list_retrieve ss.mailList (int_pred (atoi w)) = none) :
    do_list env ss =
      some ({ ss with
        sent := ss.sent ++ ["-ERR no such message, only "
          ++ toString (visible ss.mailList).length ++ " messages in maildrop\r\n"]
        mailCalls := ss.mailCalls ++ [MailCall.mail_list_length 0, MailCall.mail_list_length 1,
          MailCall.mail_list_size, MailCall.mail_list_retrieve (int_pred (atoi w))] }, 0) := by
  simp [do_list, checkstate_transaction env ss hphase, record, send_formatted, harg, hret,
    mail_list_length_eq_visible]

/-- `LIST p` on a position that is present and unmarked. -/
theorem do_list_arg_present (env : Env) (ss : serverstate) (w : String) (it : mail_item_t)
    (hphase : ss.state = State.TRANSACTION) (harg : ss.words[1]? = some w)
    (hret : mail_list_retrieve ss.mailList (int_pred (atoi w)) = some it) :
    do_list env ss =
      some ({ ss with
        sent := ss.sent ++ ["+OK " ++ toString (atoi w) ++ " "
          ++ toString (mail_item_size ss.mailList it) ++ "\r\n"]
        mailCalls := ss.mailCalls ++ [MailCall.mail_list_length 0, MailCall.mail_list_length 1,
          MailCall.mail_list_size, MailCall.mail_list_retrieve (int_pred (atoi w)),
          MailCall.mail_item_size it] }, 0) := by
  simp [do_list, checkstate_transaction env ss hphase, record, send_formatted, harg, hret]

/-- `RETR p` on a position that is absent or marked. -/
theorem do_retr_absent (env : Env) (ss : serverstate) (w : String)
    (hphase : ss.state = State.TRANSACTION) (harg : ss.words[1]? = some w)
    (hret : mail_list_retrieve ss.mailList (int_pred (atoi w)) = none) :
    do_retr env ss =
      ({ ss with
        sent := ss.sent ++ ["-ERR no such message\r\n"]
        mailCalls := ss.mailCalls ++ [MailCall.mail_list_retrieve (int_pred (atoi w))] }, 0) := by
  simp [do_retr, checkstate_transaction env ss hphase, record, send_formatted, harg, hret]

/-- `DELE p` on a position that is absent or marked. -/
theorem do_dele_absent (env : Env) (ss : serverstate) (w : String)
    (hphase : ss.state = State.TRANSACTION) (harg : ss.words[1]? = some w)
    (hret : mail_list_retrieve ss.mailList (int_pred (atoi w)) = none) :
    do_dele env ss =
      some ({ ss with
        sent := ss.sent ++ ["-ERR no such message\r\n"]
        mailCalls := ss.mailCalls ++ [MailCall.mail_list_retrieve (int_pred (atoi w))] }, 0) := by
  simp [do_dele, checkstate_transaction env ss hphase, record, send_formatted, harg, hret]

/-- `DELE` without argument. -/
theorem do_dele_no_arg (env : Env) (ss : serverstate)
    (hphase : ss.state = State.TRANSACTION) (harg : ss.words[1]? = none) :
    do_dele env ss = some (syntax_error env ss) := by
  simp [do_dele, checkstate_transaction env ss hphase, harg]

theorem do_list_hides (env : Env) (ss : serverstate) (k : Nat) (h : hides ss k) :
    ∃ r : serverstate × Int, do_list env ss = some r ∧ hides r.1 k := by
  cases harg : ss.words[1]? with
  | none =>
    exact ⟨_, do_list_no_arg env ss h.1 h.2.1 harg,
      hides_of_same_view ss _ k rfl rfl rfl h⟩
  | some w =>
    cases hret : mail_list_retrieve ss.mailList (int_pred (atoi w)) with
    | none =>
      exact ⟨_, do_list_arg_absent env ss w h.1 harg hret,
        hides_of_same_view ss _ k rfl rfl rfl h⟩
    | some it =>
      exact ⟨_, do_list_arg_present env ss w it h.1 harg hret,
        hides_of_same_view ss _ k rfl rfl rfl h⟩

theorem do_dele_hides (env : Env) (ss : serverstate) (k : Nat) (h : hides ss k) :
    ∃ r : serverstate × Int, do_dele env ss = some r ∧ hides r.1 k := by
  cases harg : ss.words[1]? with
  | none =>
    have hv := syntax_error_view env ss
    exact ⟨_, do_dele_no_arg env ss h.1 harg,
      hides_of_same_view ss _ k hv.1 hv.2.1 hv.2.2 h⟩
  | some w =>
    cases hret : mail_list_retrieve ss.mailList (int_pred (atoi w)) with
    | none =>
      exact ⟨_, do_dele_absent env ss w h.1 harg hret,
        hides_of_same_view ss _ k rfl rfl rfl h⟩
    | some it =>
      obtain ⟨d1, hval, hd⟩ := do_dele_found env ss w it h.1 h.2.1 harg hret
      obtain ⟨_, _, hlt, _⟩ := retrieve_some _ _ _ hret
      refine ⟨_, hd, h.1, ?_, ?_⟩
      · exact consistent_after_mark ss it d1 _ rfl hval hlt h.2.1 _ rfl rfl
      · show marked (mail_item_delete ss.mailList it) k = true
        rw [marked_delete _ _ _ hlt]
        by_cases hk : k = it
        · rw [if_pos hk]
        · rw [if_neg hk]
          exact h.2.2

/-! ## Dispatch of the view commands -/

theorem strcasecmp_ne (c a b : String) (h : strcasecmp c a = 0)
    (hab : a.toList.map Char.toLower ≠ b.toList.map Char.toLower) : strcasecmp c b ≠ 0 := by
  unfold strcasecmp at h ⊢
  by_cases hc : c.toList.map Char.toLower = a.toList.map Char.toLower
  · rw [hc, if_neg hab]
    exact one_ne_zero
  · rw [if_neg hc] at h
    exact absurd h one_ne_zero

/-- On a view command the dispatcher runs the handler of that command, and every handler
keeps a hidden position hidden. -/
theorem handle_command_hides (env : Env) (ss : serverstate) (k : Nat) (h : hides ss k)
    (hcmd : view_command ss.words) :
    ∃ r : serverstate × Bool, handle_command env ss = some r ∧ hides r.1 k := by
  obtain ⟨c, hc, hcase⟩ := hcmd
  rcases hcase with hs | hl | hr | hd | hn
  · have h1 := strcasecmp_ne c "STAT" "QUIT" hs (by decide)
    have h2 := strcasecmp_ne c "STAT" "USER" hs (by decide)
    have h3 := strcasecmp_ne c "STAT" "PASS" hs (by decide)
    have hv := do_stat_view env ss h.1
    refine ⟨((do_stat env ss).1, (do_stat env ss).2 = -1), ?_,
      hides_of_same_view ss (do_stat env ss).1 k hv.1 hv.2.1 hv.2.2 h⟩
    simp only [handle_command, hc, if_neg h1, if_neg h2, if_neg h3, if_pos hs]
  · have h1 := strcasecmp_ne c "LIST" "QUIT" hl (by decide)
    have h2 := strcasecmp_ne c "LIST" "USER" hl (by decide)
    have h3 := strcasecmp_ne c "LIST" "PASS" hl (by decide)
    have h4 := strcasecmp_ne c "LIST" "STAT" hl (by decide)
    obtain ⟨r, hr1, hr2⟩ := do_list_hides env ss k h
    refine ⟨(r.1, r.2 = -1), ?_, hr2⟩
    simp only [handle_command, hc, if_neg h1, if_neg h2, if_neg h3, if_neg h4, if_pos hl, hr1,
      Option.map_some']
  · have h1 := strcasecmp_ne c "RETR" "QUIT" hr (by decide)
    have h2 := strcasecmp_ne c "RETR" "USER" hr (by decide)
    have h3 := strcasecmp_ne c "RETR" "PASS" hr (by decide)
    have h4 := strcasecmp_ne c "RETR" "STAT" hr (by decide)
    have h5 := strcasecmp_ne c "RETR" "LIST" hr (by decide)
    have hv := do_retr_view env ss h.1
    refine ⟨((do_retr env ss).1, (do_retr env ss).2 = -1), ?_,
      hides_of_same_view ss (do_retr env ss).1 k hv.1 hv.2.1 hv.2.2 h⟩
    simp only [handle_command, hc, if_neg h1, if_neg h2, if_neg h3, if_neg h4, if_neg h5,
      if_pos hr]
  · have h1 := strcasecmp_ne c "DELE" "QUIT" hd (by decide)
    have h2 := strcasecmp_ne c "DELE" "USER" hd (by decide)
    have h3 := strcasecmp_ne c "DELE" "PASS" hd (by decide)
    have h4 := strcasecmp_ne c "DELE" "STAT" hd (by decide)
    have h5 := strcasecmp_ne c "DELE" "LIST" hd (by decide)
    have h6 := strcasecmp_ne c "DELE" "RETR" hd (by decide)
    have h7 := strcasecmp_ne c "DELE" "RSET" hd (by decide)
    have h8 := strcasecmp_ne c "DELE" "NOOP" hd (by decide)
    obtain ⟨r, hr1, hr2⟩ := do_dele_hides env ss k h
    refine ⟨(r.1, r.2 = -1), ?_, hr2⟩
    simp only [handle_command, hc, if_neg h1, if_neg h2, if_neg h3, if_neg h4, if_neg h5,
      if_neg h6, if_neg h7, if_neg h8, if_pos hd, hr1, Option.map_some']
  · have h1 := strcasecmp_ne c "NOOP" "QUIT" hn (by decide)
    have h2 := strcasecmp_ne c "NOOP" "USER" hn (by decide)
    have h3 := strcasecmp_ne c "NOOP" "PASS" hn (by decide)
    have h4 := strcasecmp_ne c "NOOP" "STAT" hn (by decide)
    have h5 := strcasecmp_ne c "NOOP" "LIST" hn (by decide)
    have h6 := strcasecmp_ne c "NOOP" "RETR" hn (by decide)
    have h7 := strcasecmp_ne c "NOOP" "RSET" hn (by decide)
    have hv := do_noop_view env ss h.1
    refine ⟨((do_noop env ss).1, (do_noop env ss).2 = -1), ?_,
      hides_of_same_view ss (do_noop env ss).1 k hv.1 hv.2.1 hv.2.2 h⟩
    simp only [handle_command, hc, if_neg h1, if_neg h2, if_neg h3, if_neg h4, if_neg h5,
      if_neg h6, if_neg h7, if_pos hn]

/-- A sequence of view commands runs without leaving the defined behaviour and keeps a
hidden position hidden. -/
theorem run_commands_hides (env : Env) (cmds : List (List String)) (k : Nat) :
    ∀ ss : serverstate, hides ss k → (∀ w ∈ cmds, view_command w) →
      ∃ t : serverstate, run_commands env cmds ss = some t ∧ hides t k := by
  induction cmds with
  | nil => intro ss h _; exact ⟨ss, rfl, h⟩
  | cons w rest ih =>
    intro ss h hcmds
    have hw : view_command ({ ss with words := w } : serverstate).words :=
      hcmds w (List.mem_cons_self w rest)
    obtain ⟨r, hr1, hr2⟩ := handle_command_hides env { ss with words := w } k
      (hides_of_same_view ss _ k rfl rfl rfl h) hw
    obtain ⟨t, b⟩ := r
    cases b with
    | true => exact ⟨t, by simp only [run_commands, hr1], hr2⟩
    | false =>
      obtain ⟨u, hu1, hu2⟩ := ih t hr2 (fun v hv => hcmds v (List.mem_cons_of_mem w hv))
      exact ⟨u, by simp only [run_commands, hr1, hu1], hu2⟩

/-! ## RETR -/

theorem send_lines_eq (env : Env) (lines : List String) :
    ∀ ss : serverstate,
      send_lines env ss lines = { ss with sent := ss.sent ++ lines.map c_string } := by
  induction lines with
  | nil => intro ss; simp [send_lines]
  | cons line rest ih =>
    intro ss
    have h := ih (send_formatted env ss (c_string line)).1
    simp only [send_lines, List.foldl_cons] at h ⊢
    rw [h]
    simp [send_formatted]

/-- `RETR p` on a position that is present and unmarked and whose content stream opens:
the header, the lines of the stream in order (each as `%s` writes it), then the
terminator. -/
theorem do_retr_present (env : Env) (ss : serverstate) (w : String) (it : mail_item_t)
    (lines : List String)
    (hphase : ss.state = State.TRANSACTION) (harg : ss.words[1]? = some w)
    (hret : mail_list_retrieve ss.mailList (int_pred (atoi w)) = some it)
    (hcont : mail_item_contents ss.mailList it = some lines) :
    do_retr env ss =
      ({ ss with
        sent := ss.sent ++ (["+OK " ++ toString (mail_item_size ss.mailList it) ++ " octets\r\n"]
          ++ lines.map c_string ++ [".\r\n"])
        mailCalls := ss.mailCalls ++ [MailCall.mail_list_retrieve (int_pred (atoi w)),
          MailCall.mail_item_size it, MailCall.mail_item_contents it] }, 0) := by
  simp [do_retr, checkstate_transaction env ss hphase, record, send_formatted, harg, hret,
    hcont, send_lines_eq]

/-- `RETR p` on a position that is present and unmarked but whose content stream does not
open: the header is sent, then the handler returns 1. -/
theorem do_retr_unreadable (env : Env) (ss : serverstate) (w : String) (it : mail_item_t)
    (hphase : ss.state = State.TRANSACTION) (harg : ss.words[1]? = some w)
    (hret : mail_list_retrieve ss.mailList (int_pred (atoi w)) = some it)
    (hcont : mail_item_contents ss.mailList it = none) :
    do_retr env ss =
      ({ ss with
        sent := ss.sent ++ ["+OK " ++ toString (mail_item_size ss.mailList it) ++ " octets\r\n"]
        mailCalls := ss.mailCalls ++ [MailCall.mail_list_retrieve (int_pred (atoi w)),
          MailCall.mail_item_size it, MailCall.mail_item_contents it] }, 1) := by
  simp [do_retr, checkstate_transaction env ss hphase, record, send_formatted, harg, hret,
    hcont]

/-- C12, evaluation: position 1 of the maildrop is present and unmarked, but its content
stream does not open (`mail_item_contents` returns NULL).  `RETR 1` sends the header
`+OK 120 octets` and returns 1 at once: the reply begins with `+OK` and carries neither a
message line nor the terminator `.`. -/
theorem retr_header_without_terminator :
    unreadableSession.state = State.TRANSACTION ∧
    mail_list_retrieve unreadableSession.mailList (atoi "1" - 1) = some 0 ∧
    mail_item_contents unreadableSession.mailList 0 = none ∧
    (do_retr unreadableEnv { unreadableSession with words := ["RETR", "1"] }).1.sent
      = unreadableSession.sent ++ ["+OK 120 octets\r\n"] ∧
    (do_retr unreadableEnv { unreadableSession with words := ["RETR", "1"] }).2 = 1 := by
  decide

/-! ## Commands the dispatcher does not run -/

theorem strlen_full_iff (buf : List Char) :
    ¬ strlen buf < buf.length ↔ ∀ c ∈ buf, c ≠ Char.ofNat 0 := by
  unfold strlen
  constructor
  · intro h
    have hpre := List.takeWhile_prefix (l := buf) (fun c => decide (c ≠ Char.ofNat 0))
    have heq := hpre.eq_of_length_le (by omega)
    intro c hc
    have := List.takeWhile_eq_self_iff.mp heq c hc
    simpa using this
  · intro h
    have heq : buf.takeWhile (fun c => decide (c ≠ Char.ofNat 0)) = buf :=
      List.takeWhile_eq_self_iff.mpr (fun c hc => by simpa using h c hc)
    rw [heq]
    omega

theorem strlen_trimmed (buf : List Char) (hnul : ¬ strlen buf < buf.length)
    (hblank : (buf.reverse.dropWhile isspace).reverse ≠ []) :
    strlen (buf.reverse.dropWhile isspace).reverse ≠ 0 := by
  have hmem : ∀ c ∈ (buf.reverse.dropWhile isspace).reverse, c ≠ Char.ofNat 0 := by
    intro c hc
    have h1 : c ∈ buf.reverse.dropWhile isspace := List.mem_reverse.mp hc
    have h2 : c ∈ buf.reverse := (List.dropWhile_sublist isspace).subset h1
    exact (strlen_full_iff buf).mp hnul c (List.mem_reverse.mp h2)
  have hfull := (strlen_full_iff _).mpr hmem
  have hpos : 0 < ((buf.reverse.dropWhile isspace).reverse).length :=
    List.length_pos.mpr hblank
  omega

/-- A complete line without a null byte and with something other than white space is
split into tokens and dispatched. -/
theorem handle_line_dispatch (env : Env) (ss : serverstate) (buf : List Char)
    (hlast : buf.getLast? = some '\n')
    (hnul : ¬ strlen buf < buf.length)
    (hblank : (buf.reverse.dropWhile isspace).reverse ≠ []) :
    handle_line env ss buf =
      handle_command env { ss with words := split (buf.reverse.dropWhile isspace).reverse } := by
  have hlen := strlen_trimmed buf hnul hblank
  simp only [handle_line, hlast, ne_eq, not_true_eq_false, if_false, hnul, hblank, hlen]

/-- The dispatch chain on a command name that is `TOP`, `UIDL` or `APOP` in any case. -/
theorem handle_command_not_implemented (env : Env) (ss : serverstate) (c : String)
    (hc : ss.words[0]? = some c)
    (h : strcasecmp c "TOP" = 0 ∨ strcasecmp c "UIDL" = 0 ∨ strcasecmp c "APOP" = 0) :
    handle_command env ss =
      some ({ ss with sent := ss.sent ++ ["-ERR Command not implemented\r\n"] },
        decide (env.send_result ss.sent.length ≤ 0)) := by
  have hne : ∀ name : String,
      "TOP".toList.map Char.toLower ≠ name.toList.map Char.toLower →
      "UIDL".toList.map Char.toLower ≠ name.toList.map Char.toLower →
      "APOP".toList.map Char.toLower ≠ name.toList.map Char.toLower →
      strcasecmp c name ≠ 0 := by
    intro name h1 h2 h3
    rcases h with h | h | h
    · exact strcasecmp_ne c "TOP" name h h1
    · exact strcasecmp_ne c "UIDL" name h h2
    · exact strcasecmp_ne c "APOP" name h h3
  have h1 := hne "QUIT" (by decide) (by decide) (by decide)
  have h2 := hne "USER" (by decide) (by decide) (by decide)
  have h3 := hne "PASS" (by decide) (by decide) (by decide)
  have h4 := hne "STAT" (by decide) (by decide) (by decide)
  have h5 := hne "LIST" (by decide) (by decide) (by decide)
  have h6 := hne "RETR" (by decide) (by decide) (by decide)
  have h7 := hne "RSET" (by decide) (by decide) (by decide)
  have h8 := hne "NOOP" (by decide) (by decide) (by decide)
  have h9 := hne "DELE" (by decide) (by decide) (by decide)
  simp only [handle_command, hc, if_neg h1, if_neg h2, if_neg h3, if_neg h4, if_neg h5,
    if_neg h6, if_neg h7, if_neg h8, if_neg h9, if_pos h, send_formatted]

/-- The dispatch chain on a command name that is none of the twelve known names. -/
theorem handle_command_unrecognized (env : Env) (ss : serverstate) (c : String)
    (hc : ss.words[0]? = some c)
    (h : ∀ name ∈ ["QUIT", "USER", "PASS", "STAT", "LIST", "RETR", "RSET", "NOOP", "DELE",
      "TOP", "UIDL", "APOP"], strcasecmp c name ≠ 0) :
    handle_command env ss =
      some ({ ss with sent := ss.sent ++ ["-ERR Syntax error, command unrecognized\r\n"] },
        decide (env.send_result ss.sent.length ≤ 0)) := by
  have h1 := h "QUIT" (by simp)
  have h2 := h "USER" (by simp)
  have h3 := h "PASS" (by simp)
  have h4 := h "STAT" (by simp)
  have h5 := h "LIST" (by simp)
  have h6 := h "RETR" (by simp)
  have h7 := h "RSET" (by simp)
  have h8 := h "NOOP" (by simp)
  have h9 := h "DELE" (by simp)
  have h10 : ¬ (strcasecmp c "TOP" = 0 ∨ strcasecmp c "UIDL" = 0 ∨ strcasecmp c "APOP" = 0) := by
    intro hor
    rcases hor with h0 | h0 | h0
    · exact h "TOP" (by simp) h0
    · exact h "UIDL" (by simp) h0
    · exact h "APOP" (by simp) h0
  simp only [handle_command, hc, if_neg h1, if_neg h2, if_neg h3, if_neg h4, if_neg h5,
    if_neg h6, if_neg h7, if_neg h8, if_neg h9, if_neg h10, send_formatted]

/-- C15: for every session state and every complete, null-free, non-blank line whose
first token is `c`: when `c` is `TOP`, `UIDL` or `APOP` in any case, the loop iteration
sends exactly `-ERR Command not implemented`; when `c` is, in any case, none of `QUIT`,
`USER`, `PASS`, `STAT`, `LIST`, `RETR`, `RSET`, `NOOP`, `DELE`, `TOP`, `UIDL`, `APOP`, it
sends exactly `-ERR Syntax error, command unrecognized`.  In both cases no handler runs,
the session is unchanged apart from the token array holding the tokens of the line, and
the loop is left exactly when the write fails (`send_formatted <= 0`), so the session
continues when the reply is written. -/
theorem unsupported_and_unknown_commands (env : Env) (ss : serverstate) (buf : List Char)
    (c : String)
    (hlast : buf.getLast? = some '\n')
    (hnul : ¬ strlen buf < buf.length)
    (hblank : (buf.reverse.dropWhile isspace).reverse ≠ [])
    (htoken : (split (buf.reverse.dropWhile isspace).reverse)[0]? = some c) :
    ((strcasecmp c "TOP" = 0 ∨ strcasecmp c "UIDL" = 0 ∨ strcasecmp c "APOP" = 0) →
      handle_line env ss buf =
        some ({ ss with
          words := split (buf.reverse.dropWhile isspace).reverse
          sent := ss.sent ++ ["-ERR Command not implemented\r\n"] },
          decide (env.send_result ss.sent.length ≤ 0))) ∧
    ((∀ name ∈ ["QUIT", "USER", "PASS", "STAT", "LIST", "RETR", "RSET", "NOOP", "DELE",
        "TOP", "UIDL", "APOP"], strcasecmp c name ≠ 0) →
      handle_line env ss buf =
        some ({ ss with
          words := split (buf.reverse.dropWhile isspace).reverse
          sent := ss.sent ++ ["-ERR Syntax error, command unrecognized\r\n"] },
          decide (env.send_result ss.sent.length ≤ 0))) ∧
    (0 < env.send_result ss.sent.length →
      decide (env.send_result ss.sent.length ≤ 0) = false) := by
  refine ⟨?_, ?_, ?_⟩
  · intro h
    rw [handle_line_dispatch env ss buf hlast hnul hblank]
    exact handle_command_not_implemented env _ c htoken h
  · intro h
    rw [handle_line_dispatch env ss buf hlast hnul hblank]
    exact handle_command_unrecognized env _ c htoken h
  · intro h
    exact decide_eq_false (not_le.mpr h)

/-- Witness of C15: the line `uidl 1` in the session of `bob`. -/
theorem unsupported_and_unknown_commands_witness :
    ("uidl 1\r\n".toList.getLast? = some '\n' ∧ strcasecmp "uidl" "UIDL" = 0) ∧
    handle_line sampleEnv bobSession "uidl 1\r\n".toList =
      some ({ bobSession with
        words := ["uidl", "1"]
        sent := bobSession.sent ++ ["-ERR Command not implemented\r\n"] }, false) :=
  ⟨by decide,
    ((unsupported_and_unknown_commands sampleEnv bobSession "uidl 1\r\n".toList "uidl"
      (by decide) (by decide) (by decide) (by decide)).1
        (Or.inr (Or.inl (by decide)))).trans (by decide)⟩

/-! ## Failed writes -/

/-- C16, evaluation: with every response write failing (`send_formatted` returns -1),
`USER bob` returns 0, `STAT` and `NOOP` in the session of `bob` return 0 and `QUIT` returns
1; none returns -1, and the loop processes `NOOP` after the failed reply to `STAT`. -/
theorem write_failure_not_fatal :
    (∀ k : Nat, brokenPipeEnv.send_result k = -1) ∧
    (do_user brokenPipeEnv { freshSession with words := ["USER", "bob"] }).2 = 0 ∧
    (do_stat brokenPipeEnv bobSession).2 = 0 ∧
    (do_noop brokenPipeEnv bobSession).2 = 0 ∧
    (do_quit brokenPipeEnv bobSession).2 = 1 ∧
    (handle_client_loop brokenPipeEnv ["STAT\r\n", "NOOP\r\n"] bobSession).map
        (fun s => s.sent.drop 2) = some ["+OK 2 200\r\n", "+OK\r\n"] :=
  ⟨fun _ => rfl, by decide⟩

/-- C17: when the line has no argument token and the reply is written, `USER` in phase
AUTHORIZATION, `PASS` in phase AUTHORIZATIONPASS, and `RETR` and `DELE` in phase
TRANSACTION each send exactly `-ERR Syntax error in parameters or arguments` and return 1
(unsuccessful, session kept); phase, pending user, view and deletion marks are unchanged
and no call is made to the mail store. -/
theorem missing_argument_is_syntax_error (env : Env) (ss : serverstate)
    (harg : ss.words[1]? = none)
    (hwrite : 0 < env.send_result ss.sent.length) :
    (ss.state = State.AUTHORIZATION →
      do_user env ss =
        ({ ss with sent := ss.sent ++ ["-ERR Syntax error in parameters or arguments\r\n"] },
          1)) ∧
    (ss.state = State.AUTHORIZATIONPASS →
      do_pass env ss =
        ({ ss with sent := ss.sent ++ ["-ERR Syntax error in parameters or arguments\r\n"] },
          1)) ∧
    (ss.state = State.TRANSACTION →
      do_retr env ss =
        ({ ss with sent := ss.sent ++ ["-ERR Syntax error in parameters or arguments\r\n"] },
          1) ∧
      do_dele env ss =
        some ({ ss with
          sent := ss.sent ++ ["-ERR Syntax error in parameters or arguments\r\n"] }, 1)) := by
  have hr : ¬ env.send_result ss.sent.length ≤ 0 := not_le.mpr hwrite
  have hs : syntax_error env ss =
      ({ ss with sent := ss.sent ++ ["-ERR Syntax error in parameters or arguments\r\n"] },
        1) := by
    simp [syntax_error, send_formatted, hr]
  refine ⟨?_, ?_, ?_⟩
  · intro hphase
    simp only [do_user, hphase, if_true, harg, hs]
  · intro hphase
    simp only [do_pass, hphase, if_true, harg, hs]
  · intro hphase
    constructor
    · simp only [do_retr, checkstate_transaction env ss hphase, zero_ne_one, if_false, harg, hs]
    · rw [do_dele_no_arg env ss hphase harg, hs]

/-- Witness of C17: `RETR` without argument in the session of `bob`. -/
theorem missing_argument_is_syntax_error_witness :
    (({ bobSession with words := ["RETR"] } : serverstate).words[1]? = none ∧
      0 < sampleEnv.send_result bobSession.sent.length ∧
      bobSession.state = State.TRANSACTION) ∧
    do_retr sampleEnv { bobSession with words := ["RETR"] } =
      ({ bobSession with
        words := ["RETR"]
        sent := bobSession.sent ++ ["-ERR Syntax error in parameters or arguments\r\n"] }, 1) :=
  ⟨by decide,
    ((missing_argument_is_syntax_error sampleEnv { bobSession with words := ["RETR"] }
      (by decide) (by decide)).2.2 (by decide)).1⟩

/-- C18, evaluation: with the bad-sequence reply failing to be written, `STAT` and `RSET`
in a freshly greeted session (phase AUTHORIZATION) go on to call `mail_list_length`,
`mail_list_size` and `mail_list_undelete`; and `DELE 1` in the session of `bob` after a
`QUIT` whose reply was lost (phase UPDATE) retrieves and marks position 1 and writes
`deletedSet[0] = 1`. -/
theorem mailbox_touched_outside_transaction :
    freshSession.state = State.AUTHORIZATION ∧
    (do_stat brokenPipeEnv freshSession).1.mailCalls
      = [MailCall.mail_list_length 0, MailCall.mail_list_size] ∧
    (do_rset brokenPipeEnv freshSession).1.mailCalls = [MailCall.mail_list_undelete] ∧
    bobAfterFailedQuit.state = State.UPDATE ∧
    bobAfterFailedQuit.deletedSet.read 0 = some 0 ∧
    (do_dele brokenPipeEnv { bobAfterFailedQuit with words := ["DELE", "1"] }).map
        (fun r => (r.1.mailCalls.drop 2, marked r.1.mailList 0, r.1.deletedSet.read 0))
      = some ([MailCall.mail_list_retrieve 0, MailCall.mail_item_delete 0], true, some 1) := by
  decide

/-! ## Capacity of the deletion array -/

/-- C19, evaluation: on a maildrop of 101 messages `DELE 101` retrieves position 101 and
then writes `deletedSet[100]`, and `LIST` without argument reads `deletedSet[100]`; both
indices lie outside `int deletedSet[100]`, so neither handler has a defined result. -/
theorem deletion_array_overrun :
    largeSession.state = State.TRANSACTION ∧
    largeSession.mailList.length = 101 ∧
    mail_list_retrieve largeSession.mailList (atoi "101" - 1) = some 100 ∧
    largeSession.deletedSet.write (atoi "101" - 1) 1 = none ∧
    do_dele largeEnv { largeSession with words := ["DELE", "101"] } = none ∧
    largeSession.deletedSet.read 100 = none ∧
    do_list largeEnv { largeSession with words := ["LIST"] } = none := by
  decide

/-! ## The deletion array agrees with the view -/

theorem consistent_of_same (s t : serverstate) (hm : t.mailList = s.mailList)
    (hd : t.deletedSet = s.deletedSet) (h : consistent s) : consistent t := by
  intro i hi
  rw [hm] at hi ⊢
  rw [hd]
  exact h i hi

theorem consistent_cap (ss : serverstate) (h : consistent ss) : ss.mailList.length ≤ 100 := by
  by_contra hlt
  have h100 : 100 < ss.mailList.length := by omega
  have := read_some_lt _ _ _ (h 100 h100)
  omega

theorem marked_load (env : Env) (user : String) (i : Nat) :
    marked (load_user_mail env user) i = false := by
  unfold marked
  cases hget : (load_user_mail env user)[i]? with
  | none => rfl
  | some m =>
    obtain ⟨hi, hm⟩ := List.getElem?_eq_some.mp hget
    exact load_user_mail_not_deleted env user m (hm ▸ List.getElem_mem hi)

/-- A successful `PASS` on a mailbox of at most one hundred messages starts a TRANSACTION
session whose `deletedSet` agrees with the view. -/
theorem do_pass_consistent (env : Env) (ss : serverstate) (password : String)
    (hphase : ss.state = State.AUTHORIZATIONPASS) (harg : ss.words[1]? = some password)
    (hvalid : env.is_valid_user ss.savedUser (some password) ≠ 0)
    (hcap : (env.maildrop ss.savedUser).length ≤ 100) :
    (do_pass env ss).1.state = State.TRANSACTION ∧ consistent (do_pass env ss).1 := by
  have hp : do_pass env ss =
      ({ ss with
        state := State.TRANSACTION
        mailList := load_user_mail env ss.savedUser
        deletedSet := zeroSet
        sent := ss.sent ++ ["+OK Password is valid, mail loaded\r\n"]
        mailCalls := ss.mailCalls ++ [MailCall.load_user_mail ss.savedUser] }, 0) := by
    simp [do_pass, hphase, harg, hvalid, send_formatted, record]
  rw [hp]
  refine ⟨rfl, ?_⟩
  intro i hi
  have hlen : i < (env.maildrop ss.savedUser).length := by
    rw [← load_user_mail_length]
    exact hi
  show zeroSet.read i = some (if marked (load_user_mail env ss.savedUser) i then 1 else 0)
  rw [zeroSet_read i (by omega), marked_load]
  rfl

theorem checkstate_view (env : Env) (ss : serverstate) (s : State) :
    (checkstate env ss s).1.state = ss.state ∧ (checkstate env ss s).1.mailList = ss.mailList ∧
      (checkstate env ss s).1.deletedSet = ss.deletedSet := by
  unfold checkstate
  by_cases h : ss.state ≠ s
  · rw [if_pos h]
    by_cases hr : (send_formatted env ss "-ERR Bad sequence of commands\r\n").2 ≤ 0
    · simp only [hr, if_true]
      exact ⟨rfl, rfl, rfl⟩
    · simp only [hr, if_false]
      exact ⟨rfl, rfl, rfl⟩
  · rw [if_neg h]
    exact ⟨rfl, rfl, rfl⟩

theorem do_quit_view (env : Env) (ss : serverstate) (hphase : ss.state = State.TRANSACTION) :
    (do_quit env ss).1.state = State.UPDATE ∧ (do_quit env ss).1.mailList = ss.mailList ∧
      (do_quit env ss).1.deletedSet = ss.deletedSet := by
  unfold do_quit
  simp only [hphase, if_true]
  by_cases hr : (send_formatted env
      (record { ss with state := State.UPDATE }
        (MailCall.mail_list_destroy ({ ss with state := State.UPDATE } : serverstate).mailList))
      "+OK Service closing transmission channel\r\n").2 ≥ 0
  · rw [if_pos hr]
    exact ⟨rfl, rfl, rfl⟩
  · rw [if_neg hr]
    exact ⟨rfl, rfl, rfl⟩

theorem do_list_view (env : Env) (ss : serverstate) (hphase : ss.state = State.TRANSACTION)
    (hcons : consistent ss) :
    ∃ r : serverstate × Int, do_list env ss = some r ∧ r.1.state = ss.state ∧
      r.1.mailList = ss.mailList ∧ r.1.deletedSet = ss.deletedSet := by
  cases harg : ss.words[1]? with
  | none => exact ⟨_, do_list_no_arg env ss hphase hcons harg, rfl, rfl, rfl⟩
  | some w =>
    cases hret : mail_list_retrieve ss.mailList (int_pred (atoi w)) with
    | none => exact ⟨_, do_list_arg_absent env ss w hphase harg hret, rfl, rfl, rfl⟩
    | some it => exact ⟨_, do_list_arg_present env ss w it hphase harg hret, rfl, rfl, rfl⟩

theorem do_dele_consistent (env : Env) (ss : serverstate)
    (hphase : ss.state = State.TRANSACTION) (hcons : consistent ss) :
    ∃ r : serverstate × Int, do_dele env ss = some r ∧ r.1.state = State.TRANSACTION ∧
      consistent r.1 := by
  cases harg : ss.words[1]? with
  | none =>
    have hv := syntax_error_view env ss
    exact ⟨_, do_dele_no_arg env ss hphase harg, hv.1.trans hphase,
      consistent_of_same ss _ hv.2.1 hv.2.2 hcons⟩
  | some w =>
    cases hret : mail_list_retrieve ss.mailList (int_pred (atoi w)) with
    | none =>
      exact ⟨_, do_dele_absent env ss w hphase harg hret, hphase,
        consistent_of_same ss _ rfl rfl hcons⟩
    | some it =>
      obtain ⟨d1, hval, hd⟩ := do_dele_found env ss w it hphase hcons harg hret
      obtain ⟨_, _, hlt, _⟩ := retrieve_some _ _ _ hret
      exact ⟨_, hd, hphase, consistent_after_mark ss it d1 _ rfl hval hlt hcons _ rfl rfl⟩

/-- From a TRANSACTION session whose `deletedSet` agrees with the view, every dispatched
command has a defined result, keeps the agreement, and leaves the phase at TRANSACTION or,
for `QUIT`, at UPDATE. -/
theorem handle_command_consistent (env : Env) (ss : serverstate) (c : String)
    (hphase : ss.state = State.TRANSACTION) (hcons : consistent ss)
    (hc : ss.words[0]? = some c) :
    ∃ r : serverstate × Bool, handle_command env ss = some r ∧ consistent r.1 ∧
      (r.1.state = State.TRANSACTION ∨ r.1.state = State.UPDATE) := by
  have hsend : ∀ line : String,
      consistent (send_formatted env ss line).1 ∧
        (send_formatted env ss line).1.state = State.TRANSACTION :=
    fun line => ⟨consistent_of_same ss _ rfl rfl hcons, hphase⟩
  by_cases h1 : strcasecmp c "QUIT" = 0
  · have hv := do_quit_view env ss hphase
    refine ⟨((do_quit env ss).1, (do_quit env ss).2 = -1), ?_,
      consistent_of_same ss _ hv.2.1 hv.2.2 hcons, Or.inr hv.1⟩
    simp only [handle_command, hc, if_pos h1]
  by_cases h2 : strcasecmp c "USER" = 0
  · have hu : do_user env ss = checkstate env ss State.AUTHORIZATION := by
      simp [do_user, hphase]
    have hv := checkstate_view env ss State.AUTHORIZATION
    refine ⟨((do_user env ss).1, (do_user env ss).2 = -1), ?_, ?_, Or.inl ?_⟩
    · simp only [handle_command, hc, if_neg h1, if_pos h2]
    · rw [hu]; exact consistent_of_same ss _ hv.2.1 hv.2.2 hcons
    · rw [hu]; exact hv.1.trans hphase
  by_cases h3 : strcasecmp c "PASS" = 0
  · have hu : do_pass env ss = checkstate env ss State.AUTHORIZATIONPASS := by
      simp [do_pass, hphase]
    have hv := checkstate_view env ss State.AUTHORIZATIONPASS
    refine ⟨((do_pass env ss).1, (do_pass env ss).2 = -1), ?_, ?_, Or.inl ?_⟩
    · simp only [handle_command, hc, if_neg h1, if_neg h2, if_pos h3]
    · rw [hu]; exact consistent_of_same ss _ hv.2.1 hv.2.2 hcons
    · rw [hu]; exact hv.1.trans hphase
  by_cases h4 : strcasecmp c "STAT" = 0
  · have hv := do_stat_view env ss hphase
    refine ⟨((do_stat env ss).1, (do_stat env ss).2 = -1), ?_,
      consistent_of_same ss _ hv.2.1 hv.2.2 hcons, Or.inl (hv.1.trans hphase)⟩
    simp only [handle_command, hc, if_neg h1, if_neg h2, if_neg h3, if_pos h4]
  by_cases h5 : strcasecmp c "LIST" = 0
  · obtain ⟨r, hr, hs, hm, hd⟩ := do_list_view env ss hphase hcons
    refine ⟨(r.1, r.2 = -1), ?_, consistent_of_same ss _ hm hd hcons,
      Or.inl (hs.trans hphase)⟩
    simp only [handle_command, hc, if_neg h1, if_neg h2, if_neg h3, if_neg h4, if_pos h5, hr,
      Option.map_some']
  by_cases h6 : strcasecmp c "RETR" = 0
  · have hv := do_retr_view env ss hphase
    refine ⟨((do_retr env ss).1, (do_retr env ss).2 = -1), ?_,
      consistent_of_same ss _ hv.2.1 hv.2.2 hcons, Or.inl (hv.1.trans hphase)⟩
    simp only [handle_command, hc, if_neg h1, if_neg h2, if_neg h3, if_neg h4, if_neg h5,
      if_pos h6]
  by_cases h7 : strcasecmp c "RSET" = 0
  · refine ⟨((do_rset env ss).1, (do_rset env ss).2 = -1), ?_,
      consistent_after_rset env ss hphase (consistent_cap ss hcons), Or.inl ?_⟩
    · simp only [handle_command, hc, if_neg h1, if_neg h2, if_neg h3, if_neg h4, if_neg h5,
        if_neg h6, if_pos h7]
    · rw [do_rset_transaction env ss hphase]
      exact hphase
  by_cases h8 : strcasecmp c "NOOP" = 0
  · have hv := do_noop_view env ss hphase
    refine ⟨((do_noop env ss).1, (do_noop env ss).2 = -1), ?_,
      consistent_of_same ss _ hv.2.1 hv.2.2 hcons, Or.inl (hv.1.trans hphase)⟩
    simp only [handle_command, hc, if_neg h1, if_neg h2, if_neg h3, if_neg h4, if_neg h5,
      if_neg h6, if_neg h7, if_pos h8]
  by_cases h9 : strcasecmp c "DELE" = 0
  · obtain ⟨r, hr, hs, hk⟩ := do_dele_consistent env ss hphase hcons
    refine ⟨(r.1, r.2 = -1), ?_, hk, Or.inl hs⟩
    simp only [handle_command, hc, if_neg h1, if_neg h2, if_neg h3, if_neg h4, if_neg h5,
      if_neg h6, if_neg h7, if_neg h8, if_pos h9, hr, Option.map_some']
  by_cases h10 : strcasecmp c "TOP" = 0 ∨ strcasecmp c "UIDL" = 0 ∨ strcasecmp c "APOP" = 0
  · refine ⟨((send_formatted env ss "-ERR Command not implemented\r\n").1,
        (send_formatted env ss "-ERR Command not implemented\r\n").2 ≤ 0), ?_,
      (hsend "-ERR Command not implemented\r\n").1,
      Or.inl (hsend "-ERR Command not implemented\r\n").2⟩
    simp only [handle_command, hc, if_neg h1, if_neg h2, if_neg h3, if_neg h4, if_neg h5,
      if_neg h6, if_neg h7, if_neg h8, if_neg h9, if_pos h10]
  · refine ⟨((send_formatted env ss "-ERR Syntax error, command unrecognized\r\n").1,
        (send_formatted env ss "-ERR Syntax error, command unrecognized\r\n").2 ≤ 0), ?_,
      (hsend "-ERR Syntax error, command unrecognized\r\n").1,
      Or.inl (hsend "-ERR Syntax error, command unrecognized\r\n").2⟩
    simp only [handle_command, hc, if_neg h1, if_neg h2, if_neg h3, if_neg h4, if_neg h5,
      if_neg h6, if_neg h7, if_neg h8, if_neg h9, if_neg h10]

theorem reachable_good (env : Env) (t : serverstate) (h : Reachable env t) :
    t.state = State.TRANSACTION ∧ consistent t := by
  induction h with
  | pass ss password h1 h2 h3 h4 => exact do_pass_consistent env ss password h1 h2 h3 h4
  | command ss t w b _ hcmd hst ih =>
    refine ⟨hst, ?_⟩
    cases hw : w[0]? with
    | none =>
      simp only [handle_command, hw] at hcmd
      exact absurd hcmd (by simp)
    | some c =>
      obtain ⟨r, hr, hk, _⟩ := handle_command_consistent env { ss with words := w } c
        ih.1 (consistent_of_same ss _ rfl rfl ih.2) hw
      rw [hr] at hcmd
      have : r = (t, b) := Option.some.inj hcmd
      rw [this] at hk
      exact hk

/-- C20: in every session state reached from a successful `PASS` on a mailbox of at most
one hundred messages by any sequence of commands with the phase still TRANSACTION, the
mailbox still fits the hundred cells and `deletedSet` agrees with the view: for every index
`i < N`, `deletedSet[i]` is 1 exactly when slot `i` (message `i + 1`) is marked deleted,
and 0 otherwise.  Consequently `LIST` without argument never returns 1 from a NULL
retrieve: it returns 0 after the header, one line per unmarked position and the terminator
`.`; and every further command has a defined result. -/
theorem reachable_sessions_consistent (env : Env) (t : serverstate)
    (h : Reachable env t) :
    t.state = State.TRANSACTION ∧
    t.mailList.length ≤ 100 ∧
    (∀ i : Nat, i < t.mailList.length →
      t.deletedSet.read i = some (if marked t.mailList i then 1 else 0)) ∧
    (∀ i : Nat, i < t.mailList.length →
      (t.deletedSet.read i = some 1 ↔ marked t.mailList i = true)) ∧
    (∀ ws : List String, ws[1]? = none →
      do_list env { t with words := ws } =
        some ({ t with
          words := ws
          sent := t.sent
            ++ (["+OK " ++ toString (visible t.mailList).length ++ " messages ("
                ++ toString ((visible t.mailList).map (mail_item_size t.mailList)).sum
                ++ " octets)\r\n"]
              ++ (visible t.mailList).map (list_line t.mailList) ++ [".\r\n"])
          mailCalls := t.mailCalls
            ++ ([MailCall.mail_list_length 0, MailCall.mail_list_length 1,
                MailCall.mail_list_size]
              ++ (visible t.mailList).flatMap list_calls) }, 0)) ∧
    (∀ (ws : List String) (c : String), ws[0]? = some c →
      ∃ r : serverstate × Bool, handle_command env { t with words := ws } = some r) := by
  obtain ⟨hphase, hcons⟩ := reachable_good env t h
  refine ⟨hphase, consistent_cap t hcons, hcons, ?_, ?_, ?_⟩
  · intro i hi
    rw [hcons i hi]
    cases marked t.mailList i <;> simp
  · intro ws hws
    exact do_list_no_arg env { t with words := ws } hphase (fun i hi => hcons i hi) hws
  · intro ws c hc
    obtain ⟨r, hr, _⟩ := handle_command_consistent env { t with words := ws } c hphase
      (fun i hi => hcons i hi) hc
    exact ⟨r, hr⟩

/-- Witness of C20: the session of `bob` after `PASS ok` and `DELE 1` is reachable, and
its `deletedSet` agrees with its view. -/
theorem reachable_sessions_consistent_witness :
    Reachable sampleEnv bobDeleted1 ∧
    (∀ i : Nat, i < bobDeleted1.mailList.length →
      bobDeleted1.deletedSet.read i = some (if marked bobDeleted1.mailList i then 1 else 0)) :=
  have hreach : Reachable sampleEnv bobDeleted1 :=
    Reachable.command bobSession bobDeleted1 ["DELE", "1"] false
      (Reachable.pass
        { (do_user sampleEnv { freshSession with words := ["USER", "bob"] }).1 with
          words := ["PASS", "ok"] } "ok" (by decide) (by decide) (by decide) (by decide))
      (by decide) (by decide)
  ⟨hreach, (reachable_sessions_consistent sampleEnv bobDeleted1 hreach).2.2.1⟩

/-! ## LIST with an argument -/

theorem retrieve_present (l : mail_list_t) (p : Int) (h1 : 1 ≤ p) (h2 : p ≤ l.length)
    (hm : marked l (p - 1).toNat = false) :
    mail_list_retrieve l (p - 1) = some (p - 1).toNat := by
  have hlt : (p - 1).toNat < l.length := by omega
  have h := retrieve_unmarked l (p - 1).toNat hlt hm
  rw [Int.toNat_of_nonneg (by omega)] at h
  exact h

theorem retrieve_absent (l : mail_list_t) (p : Int)
    (h : ¬ (1 ≤ p ∧ p ≤ l.length ∧ marked l (p - 1).toNat = false)) :
    mail_list_retrieve l (p - 1) = none := by
  cases hret : mail_list_retrieve l (p - 1) with
  | none => rfl
  | some it =>
    obtain ⟨hp, hit, hlt, hm⟩ := retrieve_some l (p - 1) it hret
    have hlt1 : (p - 1).toNat < l.length := hit ▸ hlt
    exact absurd ⟨by omega, by omega, hit ▸ hm⟩ h

theorem atoi_eq_leading_value (s : String) :
    atoi s = (max (-(2 ^ 63)) (min (leading_value s) (2 ^ 63 - 1)) + 2 ^ 31) % 2 ^ 32 - 2 ^ 31 := by
  rfl

theorem atoi_of_int_range (s : String) (h1 : -(2 ^ 31) ≤ leading_value s)
    (h2 : leading_value s < 2 ^ 31) : atoi s = leading_value s := by
  rw [atoi_eq_leading_value]
  have hmin : min (leading_value s) (2 ^ 63 - 1) = leading_value s := min_eq_left (by omega)
  have hmax : max (-(2 ^ 63)) (leading_value s) = leading_value s := max_eq_right (by omega)
  rw [hmin, hmax, Int.emod_eq_of_lt (by omega) (by omega)]
  omega

/-- The index the handlers pass to `mail_list_retrieve` for an argument whose leading
numeral denotes an integer `p` strictly between `-2^31` and `2^31`: it is `p - 1`. -/
theorem index_of_int_range (w : String) (h1 : -(2 ^ 31) < leading_value w)
    (h2 : leading_value w < 2 ^ 31) :
    atoi w = leading_value w ∧ int_pred (atoi w) = leading_value w - 1 := by
  have ha := atoi_of_int_range w (by omega) h2
  exact ⟨ha, by rw [ha]; exact int_pred_eq _ h1 h2⟩

/-- `LIST` with an argument whose leading numeral denotes an integer `p` strictly between
`-2^31` and `2^31`, in phase TRANSACTION: `+OK p size(p)` when `1 <= p <= N` and position
`p` carries no mark, `-ERR no such message, only c messages in maildrop` otherwise; the
session is unchanged apart from the ghost records. -/
theorem list_with_argument (env : Env) (ss : serverstate) (w : String)
    (hphase : ss.state = State.TRANSACTION)
    (harg : ss.words[1]? = some w)
    (h1 : -(2 ^ 31) < leading_value w) (h2 : leading_value w < 2 ^ 31) :
    (1 ≤ leading_value w → leading_value w ≤ ss.mailList.length →
      marked ss.mailList (leading_value w - 1).toNat = false →
      do_list env ss =
        some ({ ss with
          sent := ss.sent ++ ["+OK " ++ toString (leading_value w) ++ " "
            ++ toString (mail_item_size ss.mailList (leading_value w - 1).toNat) ++ "\r\n"]
          mailCalls := ss.mailCalls ++ [MailCall.mail_list_length 0,
            MailCall.mail_list_length 1, MailCall.mail_list_size,
            MailCall.mail_list_retrieve (leading_value w - 1),
            MailCall.mail_item_size (leading_value w - 1).toNat] }, 0)) ∧
    (¬ (1 ≤ leading_value w ∧ leading_value w ≤ ss.mailList.length ∧
        marked ss.mailList (leading_value w - 1).toNat = false) →
      do_list env ss =
        some ({ ss with
          sent := ss.sent ++ ["-ERR no such message, only "
            ++ toString (visible ss.mailList).length ++ " messages in maildrop\r\n"]
          mailCalls := ss.mailCalls ++ [MailCall.mail_list_length 0,
            MailCall.mail_list_length 1, MailCall.mail_list_size,
            MailCall.mail_list_retrieve (leading_value w - 1)] }, 0)) := by
  obtain ⟨ha, hi⟩ := index_of_int_range w h1 h2
  constructor
  · intro hp1 hp2 hm
    have hret := retrieve_present ss.mailList (leading_value w) hp1 hp2 hm
    rw [← hi] at hret
    have h := do_list_arg_present env ss w _ hphase harg hret
    rw [hi, ha] at h
    exact h
  · intro hn
    have hret := retrieve_absent ss.mailList (leading_value w) hn
    rw [← hi] at hret
    have h := do_list_arg_absent env ss w hphase harg hret
    rw [hi] at h
    exact h

/-- C11, evaluation: the argument `4294967297` denotes a position outside `1..2`, yet
`atoi` turns it into 1 and `LIST 4294967297` on the two messages of `bob` answers
`+OK 1 120` instead of `-ERR no such message, only 2 messages in maildrop`. -/
theorem list_argument_wraps_to_position_one :
    bobSession.state = State.TRANSACTION ∧
    bobSession.mailList.length = 2 ∧
    leading_value "4294967297" = 4294967297 ∧
    atoi "4294967297" = 1 ∧
    (do_list sampleEnv { bobSession with words := ["LIST", "4294967297"] }).map
        (fun r => r.1.sent.getLast?) = some (some "+OK 1 120\r\n") := by
  decide

/-! ## DELE -/

theorem mail_item_size_delete (l : mail_list_t) (it i : Nat) :
    mail_item_size (mail_item_delete l it) i = mail_item_size l i := by
  unfold mail_item_size mail_item_delete
  rw [List.getElem?_modify]
  cases l[i]? with
  | none => rfl
  | some m => by_cases h : it = i <;> simp [h]

theorem mail_item_contents_delete (l : mail_list_t) (it i : Nat) :
    mail_item_contents (mail_item_delete l it) i = mail_item_contents l i := by
  unfold mail_item_contents mail_item_delete
  rw [List.getElem?_modify]
  cases l[i]? with
  | none => rfl
  | some m => by_cases h : it = i <;> simp [h]

/-- A `DELE` whose position is retrieved and lies within the hundred cells of
`deletedSet`. -/
theorem do_dele_found_cell (env : Env) (ss : serverstate) (w : String) (it : mail_item_t)
    (hphase : ss.state = State.TRANSACTION)
    (harg : ss.words[1]? = some w)
    (hret : mail_list_retrieve ss.mailList (int_pred (atoi w)) = some it)
    (h100 : it < 100) :
    ∃ d1 : DeletedSet, d1.val = ss.deletedSet.val.set it 1 ∧
      do_dele env ss =
        some ({ ss with
          mailList := mail_item_delete ss.mailList it
          deletedSet := d1
          sent := ss.sent ++ ["+OK message " ++ toString (atoi w) ++ " deleted\r\n"]
          mailCalls := ss.mailCalls ++ [MailCall.mail_list_retrieve (int_pred (atoi w)),
            MailCall.mail_item_delete it] }, 0) := by
  obtain ⟨hp, hit, hlt, hm⟩ := retrieve_some _ _ _ hret
  have hcast : int_pred (atoi w) = (it : Int) := by rw [hit, Int.toNat_of_nonneg hp]
  obtain ⟨d1, hw, hval⟩ := write_nat ss.deletedSet it 1 h100
  refine ⟨d1, hval, ?_⟩
  rw [hcast] at hret
  simp [do_dele, checkstate, hphase, harg, record, send_formatted, hcast, hret, hw]

/-- `DELE` with an argument whose leading numeral denotes an integer `p` strictly between
`-2^31` and `2^31`, in phase TRANSACTION.  When `p` is outside `1..N` or already marked, it
sends `-ERR no such message`, returns 0 and changes nothing else.  Otherwise, `p` being
within the hundred cells of `deletedSet`, it sends `+OK message p deleted`, returns 0,
marks slot `p - 1` in the view, sets cell `p - 1` of `deletedSet` to 1 and leaves every
other mark and cell, the phase, the arguments, the pending user, the number and order of
the slots and their sizes and contents unchanged. -/
theorem dele_marks_one_position (env : Env) (ss : serverstate) (w : String)
    (hphase : ss.state = State.TRANSACTION)
    (harg : ss.words[1]? = some w)
    (h1 : -(2 ^ 31) < leading_value w) (h2 : leading_value w < 2 ^ 31) :
    (¬ (1 ≤ leading_value w ∧ leading_value w ≤ ss.mailList.length ∧
        marked ss.mailList (leading_value w - 1).toNat = false) →
      do_dele env ss =
        some ({ ss with
          sent := ss.sent ++ ["-ERR no such message\r\n"]
          mailCalls := ss.mailCalls
            ++ [MailCall.mail_list_retrieve (leading_value w - 1)] }, 0)) ∧
    (1 ≤ leading_value w → leading_value w ≤ ss.mailList.length →
      marked ss.mailList (leading_value w - 1).toNat = false → leading_value w ≤ 100 →
      ∃ t : serverstate, do_dele env ss = some (t, 0) ∧
        t.sent = ss.sent ++ ["+OK message " ++ toString (leading_value w) ++ " deleted\r\n"] ∧
        t.state = ss.state ∧ t.words = ss.words ∧ t.savedUser = ss.savedUser ∧
        t.fd = ss.fd ∧
        t.mailList.length = ss.mailList.length ∧
        marked t.mailList (leading_value w - 1).toNat = true ∧
        t.deletedSet.read ((leading_value w - 1).toNat : Nat) = some 1 ∧
        (∀ i : Nat, i ≠ (leading_value w - 1).toNat →
          marked t.mailList i = marked ss.mailList i ∧
          t.deletedSet.read i = ss.deletedSet.read i) ∧
        (∀ i : Nat, mail_item_size t.mailList i = mail_item_size ss.mailList i ∧
          mail_item_contents t.mailList i = mail_item_contents ss.mailList i)) := by
  obtain ⟨ha, hi⟩ := index_of_int_range w h1 h2
  constructor
  · intro h
    have hret := retrieve_absent ss.mailList (leading_value w) h
    rw [← hi] at hret
    have hd := do_dele_absent env ss w hphase harg hret
    rw [hi] at hd
    exact hd
  · intro hp1 hp2 hm h100
    have hret := retrieve_present ss.mailList (leading_value w) hp1 hp2 hm
    rw [← hi] at hret
    have hlt : (leading_value w - 1).toNat < ss.mailList.length := by omega
    have hcell : (leading_value w - 1).toNat < 100 := by omega
    have hcell1 : (int_pred (atoi w)).toNat < 100 := by rw [hi]; exact hcell
    obtain ⟨d1, hval, hd⟩ := do_dele_found_cell env ss w _ hphase harg hret hcell1
    rw [hi, ha] at hd
    rw [hi] at hval
    refine ⟨_, hd, rfl, rfl, rfl, rfl, rfl, ?_, ?_, ?_, ?_, ?_⟩
    · simp [mail_item_delete]
    · show marked (mail_item_delete ss.mailList (leading_value w - 1).toNat)
        (leading_value w - 1).toNat = true
      rw [marked_delete _ _ _ hlt, if_pos rfl]
    · show d1.read ((leading_value w - 1).toNat : Nat) = some 1
      rw [read_nat, hval, List.getElem?_set, if_pos rfl, if_pos]
      rw [ss.deletedSet.property]
      exact hcell
    · intro i hne
      constructor
      · show marked (mail_item_delete ss.mailList (leading_value w - 1).toNat) i
          = marked ss.mailList i
        rw [marked_delete _ _ _ hlt, if_neg hne]
      · show d1.read (i : Nat) = ss.deletedSet.read i
        rw [read_nat, read_nat, hval, List.getElem?_set, if_neg (Ne.symm hne)]
    · intro i
      exact ⟨mail_item_size_delete _ _ _, mail_item_contents_delete _ _ _⟩

/-- C13, evaluation: (a) the argument `4294967297` denotes a position outside `1..2`, yet
`atoi` turns it into 1 and `DELE 4294967297` on the two messages of `bob` answers
`+OK message 1 deleted` and marks message 1, instead of `-ERR no such message` and no
change; (b) on a maildrop of 101 messages, position 101 is present and unmarked, and
`DELE 101` writes `deletedSet[100]`, outside `int deletedSet[100]`: the handler has no
defined result, so the mark of position 101 is not recorded within the session. -/
theorem dele_wraps_and_overruns :
    bobSession.state = State.TRANSACTION ∧
    bobSession.mailList.length = 2 ∧
    leading_value "4294967297" = 4294967297 ∧
    marked bobSession.mailList 0 = false ∧
    (do_dele sampleEnv { bobSession with words := ["DELE", "4294967297"] }).map
        (fun r => (r.1.sent.getLast?, marked r.1.mailList 0, r.1.deletedSet.read 0))
      = some (some "+OK message 1 deleted\r\n", true, some 1) ∧
    largeSession.state = State.TRANSACTION ∧
    largeSession.mailList.length = 101 ∧
    leading_value "101" = 101 ∧
    marked largeSession.mailList 100 = false ∧
    do_dele largeEnv { largeSession with words := ["DELE", "101"] } = none := by
  decide

/-! ## Arguments that are not positions -/

theorem leading_value_of_no_digit (s : String) (h : leading_digits s = []) :
    leading_value s = 0 := by
  unfold leading_digits at h
  unfold leading_value
  simp only at h ⊢
  rw [h]
  simp

/-- For a position that is zero or below, `mail_list_retrieve` is asked for a negative
index and finds nothing. -/
theorem retrieve_nonpositive (l : mail_list_t) (p : Int) (h : p ≤ 0) :
    mail_list_retrieve l (p - 1) = none :=
  retrieve_absent l p (fun hp => by omega)

/-- C14, counterexample: the token `1x` is not a decimal numeral, yet `LIST 1x`, `RETR 1x`
and `DELE 1x` in the session of `bob` all succeed on position 1: `atoi` reads the leading
digit and ignores the rest. -/
theorem numeric_prefix_argument_accepted :
    "1x".toList.all Char.isDigit = false ∧
    (do_list sampleEnv { bobSession with words := ["LIST", "1x"] }).map
        (fun r => r.1.sent.getLast?) = some (some "+OK 1 120\r\n") ∧
    (do_retr sampleEnv { bobSession with words := ["RETR", "1x"] }).1.sent.drop 2
      = ["+OK 120 octets\r\n", "first\r\n", ".\r\n"] ∧
    (do_dele sampleEnv { bobSession with words := ["DELE", "1x"] }).map
        (fun r => (r.1.sent.getLast?, marked r.1.mailList 0))
      = some (some "+OK message 1 deleted\r\n", true) := by
  decide

/-- C14, amended: in phase TRANSACTION, for every argument token in which `atoi` finds no
digit after the optional white space and sign, and for every token whose leading numeral
denotes an integer greater than `-2^31` and at most 0, `LIST`, `RETR` and `DELE` return 0
and send the `-ERR no such message` failure (`LIST` with its count suffix) and nothing
else; none of them sends a success or a syntax error, and the phase, the arguments, the
view and the deletion marks are unchanged (only the ghost records grow). -/
theorem nonpositive_argument_not_found (env : Env) (ss : serverstate) (w : String)
    (hphase : ss.state = State.TRANSACTION)
    (harg : ss.words[1]? = some w)
    (hw : leading_digits w = [] ∨ (-(2 ^ 31) < leading_value w ∧ leading_value w ≤ 0)) :
    do_list env ss =
      some ({ ss with
        sent := ss.sent ++ ["-ERR no such message, only "
          ++ toString (visible ss.mailList).length ++ " messages in maildrop\r\n"]
        mailCalls := ss.mailCalls ++ [MailCall.mail_list_length 0, MailCall.mail_list_length 1,
          MailCall.mail_list_size, MailCall.mail_list_retrieve (leading_value w - 1)] }, 0) ∧
    do_retr env ss =
      ({ ss with
        sent := ss.sent ++ ["-ERR no such message\r\n"]
        mailCalls := ss.mailCalls ++ [MailCall.mail_list_retrieve (leading_value w - 1)] },
        0) ∧
    do_dele env ss =
      some ({ ss with
        sent := ss.sent ++ ["-ERR no such message\r\n"]
        mailCalls := ss.mailCalls ++ [MailCall.mail_list_retrieve (leading_value w - 1)] },
        0) := by
  have hval : -(2 ^ 31) < leading_value w ∧ leading_value w ≤ 0 := by
    rcases hw with h | h
    · rw [leading_value_of_no_digit w h]
      omega
    · exact h
  obtain ⟨_, hi⟩ := index_of_int_range w hval.1 (by omega)
  have hret := retrieve_nonpositive ss.mailList (leading_value w) hval.2
  rw [← hi] at hret
  have hl := do_list_arg_absent env ss w hphase harg hret
  have hr := do_retr_absent env ss w hphase harg hret
  have hd := do_dele_absent env ss w hphase harg hret
  rw [hi] at hl hr hd
  exact ⟨hl, hr, hd⟩

/-- Witness of C14 as amended: `DELE abc` in the session of `bob`. -/
theorem nonpositive_argument_not_found_witness :
    (bobSession.state = State.TRANSACTION ∧ leading_digits "abc" = []) ∧
    (do_dele sampleEnv { bobSession with words := ["DELE", "abc"] }).map
        (fun r => (r.1.sent.getLast?, r.1.mailList))
      = some (some "-ERR no such message\r\n", bobSession.mailList) :=
  ⟨by decide,
    (congrArg (Option.map (fun r => (r.1.sent.getLast?, r.1.mailList)))
      (nonpositive_argument_not_found sampleEnv { bobSession with words := ["DELE", "abc"] }
        "abc" (by decide) (by decide) (Or.inl (by decide))).2.2).trans (by decide)⟩

/-! ## DELE hides a position until RSET -/

theorem marks_of_same_view (s t : serverstate) (k : Nat) (hs : t.state = s.state)
    (hm : t.mailList = s.mailList) (hd : t.deletedSet = s.deletedSet) (h : marks s k) :
    marks t k := by
  obtain ⟨h1, h2, h3⟩ := h
  exact ⟨hs.trans h1, hm ▸ h2, hd ▸ h3⟩

/-- The listing loop, whenever it has a result: it touches neither the phase, the view nor
the marks, and every line it prints is the line of an index whose cell of `deletedSet`
is not 1. -/
theorem do_list_loop_result (env : Env) (idx : List Nat) :
    ∀ (ss : serverstate) (r : serverstate × Option Int), do_list_loop env idx ss = some r →
      r.1.state = ss.state ∧ r.1.mailList = ss.mailList ∧ r.1.deletedSet = ss.deletedSet ∧
      ∃ ps : List Nat, r.1.sent = ss.sent ++ ps.map (list_line ss.mailList) ∧
        ∀ p ∈ ps, ss.deletedSet.read p ≠ some 1 := by
  induction idx with
  | nil =>
    intro ss r h
    simp only [do_list_loop] at h
    have hr : (ss, none) = r := Option.some.inj h
    subst hr
    exact ⟨rfl, rfl, rfl, [], by simp, by simp⟩
  | cons i rest ih =>
    intro ss r h
    rw [do_list_loop] at h
    cases hread : ss.deletedSet.read i with
    | none =>
      rw [hread] at h
      exact absurd h (by simp)
    | some d =>
      rw [hread] at h
      simp only at h
      by_cases hd : d ≠ 1
      · rw [if_pos hd] at h
        cases hret : mail_list_retrieve (record ss (MailCall.mail_list_retrieve i)).mailList
            (i : Int) with
        | none =>
          rw [hret] at h
          have hr : (record ss (MailCall.mail_list_retrieve i), some 1) = r :=
            Option.some.inj h
          subst hr
          exact ⟨rfl, rfl, rfl, [], by simp [record], by simp⟩
        | some mItem =>
          rw [hret] at h
          simp only at h
          obtain ⟨h1, h2, h3, ps, h4, h5⟩ := ih _ r h
          have hm : mItem = i := by
            obtain ⟨_, hit, _, _⟩ := retrieve_some _ _ _ hret
            simpa using hit
          refine ⟨h1, h2, h3, i :: ps, ?_, ?_⟩
          · rw [h4]
            simp [send_formatted, record, list_line, hm]
          · intro p hp
            rcases List.mem_cons.mp hp with hpi | hpp
            · rw [hpi, hread]
              intro hcontra
              exact hd (Option.some.inj hcontra)
            · exact h5 p hpp
      · rw [if_neg hd] at h
        exact ih ss r h

/-- `LIST` without argument in phase TRANSACTION, whenever it has a result: the header,
then lines of indices whose cell of `deletedSet` is not 1, then the terminator or, after
an early return, nothing; phase, view and marks are unchanged. -/
theorem do_list_no_arg_result (env : Env) (ss : serverstate) (r : serverstate × Int)
    (hphase : ss.state = State.TRANSACTION) (harg : ss.words[1]? = none)
    (h : do_list env ss = some r) :
    r.1.state = ss.state ∧ r.1.mailList = ss.mailList ∧ r.1.deletedSet = ss.deletedSet ∧
    ∃ (ps : List Nat) (tail : List String),
      r.1.sent = ss.sent
        ++ (["+OK " ++ toString (visible ss.mailList).length ++ " messages ("
            ++ toString ((visible ss.mailList).map (mail_item_size ss.mailList)).sum
            ++ " octets)\r\n"]
          ++ ps.map (list_line ss.mailList) ++ tail) ∧
      (tail = [] ∨ tail = [".\r\n"]) ∧
      ∀ p ∈ ps, ss.deletedSet.read p ≠ some 1 := by
  simp only [do_list, checkstate_transaction env ss hphase, zero_ne_one, if_false, record,
    harg, send_formatted, mail_list_length_eq_visible, mail_list_size_eq_visible] at h
  cases hl : do_list_loop env (List.range (mail_list_length ss.mailList 1))
      { ss with
        sent := ss.sent ++ ["+OK " ++ toString (visible ss.mailList).length ++ " messages ("
          ++ toString ((visible ss.mailList).map (mail_item_size ss.mailList)).sum
          ++ " octets)\r\n"]
        mailCalls := ss.mailCalls ++ [MailCall.mail_list_length 0] ++
          [MailCall.mail_list_length 1] ++ [MailCall.mail_list_size] } with
  | none =>
    rw [hl] at h
    exact absurd h (by simp)
  | some x =>
    rw [hl] at h
    obtain ⟨h1, h2, h3, ps, h4, h5⟩ := do_list_loop_result env _ _ x hl
    obtain ⟨ss3, o⟩ := x
    cases o with
    | some code =>
      have hr : (ss3, code) = r := Option.some.inj h
      subst hr
      exact ⟨h1, h2, h3, ps, [], by simpa using h4, Or.inl rfl, h5⟩
    | none =>
      simp only at h
      have hr : ({ ss3 with sent := ss3.sent ++ [".\r\n"] }, (0 : Int)) = r :=
        Option.some.inj h
      subst hr
      refine ⟨h1, h2, h3, ps, [".\r\n"], ?_, Or.inr rfl, h5⟩
      show ss3.sent ++ [".\r\n"] = _
      simp only at h4
      rw [h4]
      simp

/-- `LIST`, with or without argument, in phase TRANSACTION, whenever it has a result:
phase, view and marks are unchanged. -/
theorem do_list_result_view (env : Env) (ss : serverstate) (r : serverstate × Int)
    (hphase : ss.state = State.TRANSACTION) (h : do_list env ss = some r) :
    r.1.state = ss.state ∧ r.1.mailList = ss.mailList ∧ r.1.deletedSet = ss.deletedSet := by
  cases harg : ss.words[1]? with
  | none =>
    obtain ⟨h1, h2, h3, _⟩ := do_list_no_arg_result env ss r hphase harg h
    exact ⟨h1, h2, h3⟩
  | some w =>
    cases hret : mail_list_retrieve ss.mailList (int_pred (atoi w)) with
    | none =>
      rw [do_list_arg_absent env ss w hphase harg hret] at h
      have hr := Option.some.inj h
      subst hr
      exact ⟨rfl, rfl, rfl⟩
    | some it =>
      rw [do_list_arg_present env ss w it hphase harg hret] at h
      have hr := Option.some.inj h
      subst hr
      exact ⟨rfl, rfl, rfl⟩

/-- A `DELE` whose position is retrieved but lies beyond the hundred cells of
`deletedSet` has no defined result. -/
theorem do_dele_overrun (env : Env) (ss : serverstate) (w : String) (it : mail_item_t)
    (hphase : ss.state = State.TRANSACTION)
    (harg : ss.words[1]? = some w)
    (hret : mail_list_retrieve ss.mailList (int_pred (atoi w)) = some it)
    (h100 : ¬ it < 100) :
    do_dele env ss = none := by
  obtain ⟨hp, hit, _, _⟩ := retrieve_some _ _ _ hret
  have hw : ss.deletedSet.write (int_pred (atoi w)) 1 = none := by
    unfold DeletedSet.write
    rw [if_neg]
    intro hc
    exact h100 (hit ▸ hc.2)
  simp [do_dele, checkstate_transaction env ss hphase, harg, record, hret, hw]

/-- `DELE` in phase TRANSACTION, whenever it has a result, keeps a marked slot marked. -/
theorem do_dele_marks (env : Env) (ss : serverstate) (k : Nat) (r : serverstate × Int)
    (h : marks ss k) (hd : do_dele env ss = some r) : marks r.1 k := by
  cases harg : ss.words[1]? with
  | none =>
    rw [do_dele_no_arg env ss h.1 harg] at hd
    have hr := Option.some.inj hd
    subst hr
    have hv := syntax_error_view env ss
    exact marks_of_same_view ss _ k hv.1 hv.2.1 hv.2.2 h
  | some w =>
    cases hret : mail_list_retrieve ss.mailList (int_pred (atoi w)) with
    | none =>
      rw [do_dele_absent env ss w h.1 harg hret] at hd
      have hr := Option.some.inj hd
      subst hr
      exact marks_of_same_view ss _ k rfl rfl rfl h
    | some it =>
      by_cases h100 : it < 100
      · obtain ⟨d1, hval, hfound⟩ := do_dele_found_cell env ss w it h.1 harg hret h100
        obtain ⟨_, _, hlt, _⟩ := retrieve_some _ _ _ hret
        rw [hfound] at hd
        have hr := Option.some.inj hd
        subst hr
        refine ⟨h.1, ?_, ?_⟩
        · show marked (mail_item_delete ss.mailList it) k = true
          rw [marked_delete _ _ _ hlt]
          by_cases hk : k = it
          · rw [if_pos hk]
          · rw [if_neg hk]
            exact h.2.1
        · show d1.read (k : Nat) = some 1
          rw [read_nat, hval, List.getElem?_set]
          by_cases hk : it = k
          · rw [if_pos hk, if_pos]
            rw [ss.deletedSet.property]
            exact h100
          · rw [if_neg hk, ← read_nat]
            exact h.2.2
      · rw [do_dele_overrun env ss w it h.1 harg hret h100] at hd
        exact absurd hd (by simp)

/-- On a view command the dispatcher, whenever it has a result, keeps a marked slot
marked. -/
theorem handle_command_marks (env : Env) (ss : serverstate) (k : Nat)
    (r : serverstate × Bool) (h : marks ss k) (hcmd : view_command ss.words)
    (hr : handle_command env ss = some r) : marks r.1 k := by
  obtain ⟨c, hc, hcase⟩ := hcmd
  rcases hcase with hs | hl | hre | hd | hn
  · have h1 := strcasecmp_ne c "STAT" "QUIT" hs (by decide)
    have h2 := strcasecmp_ne c "STAT" "USER" hs (by decide)
    have h3 := strcasecmp_ne c "STAT" "PASS" hs (by decide)
    have hv := do_stat_view env ss h.1
    simp only [handle_command, hc, if_neg h1, if_neg h2, if_neg h3, if_pos hs] at hr
    have := Option.some.inj hr
    subst this
    exact marks_of_same_view ss (do_stat env ss).1 k hv.1 hv.2.1 hv.2.2 h
  · have h1 := strcasecmp_ne c "LIST" "QUIT" hl (by decide)
    have h2 := strcasecmp_ne c "LIST" "USER" hl (by decide)
    have h3 := strcasecmp_ne c "LIST" "PASS" hl (by decide)
    have h4 := strcasecmp_ne c "LIST" "STAT" hl (by decide)
    simp only [handle_command, hc, if_neg h1, if_neg h2, if_neg h3, if_neg h4, if_pos hl] at hr
    cases hres : do_list env ss with
    | none =>
      rw [hres] at hr
      exact absurd hr (by simp)
    | some x =>
      rw [hres] at hr
      have := Option.some.inj hr
      subst this
      obtain ⟨hv1, hv2, hv3⟩ := do_list_result_view env ss x h.1 hres
      exact marks_of_same_view ss x.1 k hv1 hv2 hv3 h
  · have h1 := strcasecmp_ne c "RETR" "QUIT" hre (by decide)
    have h2 := strcasecmp_ne c "RETR" "USER" hre (by decide)
    have h3 := strcasecmp_ne c "RETR" "PASS" hre (by decide)
    have h4 := strcasecmp_ne c "RETR" "STAT" hre (by decide)
    have h5 := strcasecmp_ne c "RETR" "LIST" hre (by decide)
    have hv := do_retr_view env ss h.1
    simp only [handle_command, hc, if_neg h1, if_neg h2, if_neg h3, if_neg h4, if_neg h5,
      if_pos hre] at hr
    have := Option.some.inj hr
    subst this
    exact marks_of_same_view ss (do_retr env ss).1 k hv.1 hv.2.1 hv.2.2 h
  · have h1 := strcasecmp_ne c "DELE" "QUIT" hd (by decide)
    have h2 := strcasecmp_ne c "DELE" "USER" hd (by decide)
    have h3 := strcasecmp_ne c "DELE" "PASS" hd (by decide)
    have h4 := strcasecmp_ne c "DELE" "STAT" hd (by decide)
    have h5 := strcasecmp_ne c "DELE" "LIST" hd (by decide)
    have h6 := strcasecmp_ne c "DELE" "RETR" hd (by decide)
    have h7 := strcasecmp_ne c "DELE" "RSET" hd (by decide)
    have h8 := strcasecmp_ne c "DELE" "NOOP" hd (by decide)
    simp only [handle_command, hc, if_neg h1, if_neg h2, if_neg h3, if_neg h4, if_neg h5,
      if_neg h6, if_neg h7, if_neg h8, if_pos hd] at hr
    cases hres : do_dele env ss with
    | none =>
      rw [hres] at hr
      exact absurd hr (by simp)
    | some x =>
      rw [hres] at hr
      have := Option.some.inj hr
      subst this
      exact do_dele_marks env ss k x h hres
  · have h1 := strcasecmp_ne c "NOOP" "QUIT" hn (by decide)
    have h2 := strcasecmp_ne c "NOOP" "USER" hn (by decide)
    have h3 := strcasecmp_ne c "NOOP" "PASS" hn (by decide)
    have h4 := strcasecmp_ne c "NOOP" "STAT" hn (by decide)
    have h5 := strcasecmp_ne c "NOOP" "LIST" hn (by decide)
    have h6 := strcasecmp_ne c "NOOP" "RETR" hn (by decide)
    have h7 := strcasecmp_ne c "NOOP" "RSET" hn (by decide)
    have hv := do_noop_view env ss h.1
    simp only [handle_command, hc, if_neg h1, if_neg h2, if_neg h3, if_neg h4, if_neg h5,
      if_neg h6, if_neg h7, if_pos hn] at hr
    have := Option.some.inj hr
    subst this
    exact marks_of_same_view ss (do_noop env ss).1 k hv.1 hv.2.1 hv.2.2 h

/-- Every session a sequence of view commands reaches keeps a marked slot marked. -/
theorem run_commands_marks (env : Env) (cmds : List (List String)) (k : Nat) :
    ∀ ss t : serverstate, marks ss k → (∀ w ∈ cmds, view_command w) →
      run_commands env cmds ss = some t → marks t k := by
  induction cmds with
  | nil =>
    intro ss t h _ hrun
    simp only [run_commands] at hrun
    have := Option.some.inj hrun
    subst this
    exact h
  | cons w rest ih =>
    intro ss t h hcmds hrun
    have hw : view_command ({ ss with words := w } : serverstate).words :=
      hcmds w (List.mem_cons_self w rest)
    rw [run_commands] at hrun
    cases hres : handle_command env { ss with words := w } with
    | none =>
      rw [hres] at hrun
      exact absurd hrun (by simp)
    | some x =>
      rw [hres] at hrun
      have hx := handle_command_marks env { ss with words := w } k x
        (marks_of_same_view ss _ k rfl rfl rfl h) hw hres
      obtain ⟨u, b⟩ := x
      cases b with
      | true =>
        simp only at hrun
        have := Option.some.inj hrun
        subst this
        exact hx
      | false =>
        simp only at hrun
        exact ih u t hx (fun v hv => hcmds v (List.mem_cons_of_mem w hv)) hrun

/-- C4: in every TRANSACTION session, let `DELE` with argument `w` be answered
`+OK message i deleted`, `i = atoi w`.  Then `i` is a position `k + 1` of the view, and in
every session `t` that a following sequence of `STAT`, `LIST`, `RETR`, `DELE` and `NOOP`
commands (no `RSET`) reaches, slot `k` is still marked and not among the unmarked indices:
`RETR i` sends exactly `-ERR no such message` and `LIST i` exactly
`-ERR no such message, only c messages in maildrop`; whatever a `LIST` without argument
sends is the header, lines of indices other than `k`, and the terminator (or nothing after
an early return), so no line carries position `i`; and the count and size that `STAT` and
the `LIST` header report range over the unmarked indices only.  Moreover, when
`deletedSet` agrees with the view at the start, the sequence does reach a session, and
there a `LIST` without argument returns 0 with the full listing of the unmarked
positions. -/
theorem deleted_position_stays_hidden (env : Env) (ss : serverstate) (w : String)
    (cmds : List (List String))
    (hphase : ss.state = State.TRANSACTION)
    (harg : ss.words[1]? = some w)
    (hok : (do_dele env ss).map (fun r => r.1.sent) =
      some (ss.sent ++ ["+OK message " ++ toString (atoi w) ++ " deleted\r\n"]))
    (hcmds : ∀ c ∈ cmds, view_command c) :
    ∃ (k : Nat) (s1 : serverstate),
      atoi w = (k : Int) + 1 ∧ k < ss.mailList.length ∧
      do_dele env ss = some (s1, 0) ∧
      (∀ t : serverstate, run_commands env cmds s1 = some t →
        t.state = State.TRANSACTION ∧
        marked t.mailList k = true ∧
        k ∉ visible t.mailList ∧
        (∀ (ws : List String) (v : String), ws[1]? = some v → atoi v = atoi w →
          do_retr env { t with words := ws } =
            ({ t with
              words := ws
              sent := t.sent ++ ["-ERR no such message\r\n"]
              mailCalls := t.mailCalls ++ [MailCall.mail_list_retrieve (k : Int)] }, 0)) ∧
        (∀ (ws : List String) (v : String), ws[1]? = some v → atoi v = atoi w →
          (do_list env { t with words := ws }).map (fun r => (r.1.sent, r.2)) =
            some (t.sent ++ ["-ERR no such message, only "
              ++ toString (visible t.mailList).length ++ " messages in maildrop\r\n"], 0)) ∧
        (∀ (ws : List String) (r : serverstate × Int), ws[1]? = none →
          do_list env { t with words := ws } = some r →
          ∃ (ps : List Nat) (tail : List String),
            r.1.sent = t.sent
              ++ (["+OK " ++ toString (visible t.mailList).length ++ " messages ("
                  ++ toString ((visible t.mailList).map (mail_item_size t.mailList)).sum
                  ++ " octets)\r\n"]
                ++ ps.map (list_line t.mailList) ++ tail) ∧
            (tail = [] ∨ tail = [".\r\n"]) ∧ k ∉ ps) ∧
        (∀ ws : List String,
          ((do_stat env { t with words := ws }).1.sent,
              (do_stat env { t with words := ws }).2) =
            (t.sent ++ ["+OK " ++ toString (visible t.mailList).length ++ " "
              ++ toString ((visible t.mailList).map (mail_item_size t.mailList)).sum
              ++ "\r\n"], 0))) ∧
      (consistent ss →
        ∃ t : serverstate, run_commands env cmds s1 = some t ∧ consistent t ∧
          ∀ ws : List String, ws[1]? = none →
            (do_list env { t with words := ws }).map (fun r => (r.1.sent, r.2)) =
              some (t.sent
                ++ (["+OK " ++ toString (visible t.mailList).length ++ " messages ("
                    ++ toString ((visible t.mailList).map (mail_item_size t.mailList)).sum
                    ++ " octets)\r\n"]
                  ++ (visible t.mailList).map (list_line t.mailList) ++ [".\r\n"]), 0)) := by
  cases hret : mail_list_retrieve ss.mailList (int_pred (atoi w)) with
  | none =>
    rw [do_dele_absent env ss w hphase harg hret] at hok
    simp only [Option.map_some', Option.some.injEq, List.append_cancel_left_eq,
      List.cons.injEq, and_true] at hok
    exact absurd hok.symm (ok_deleted_ne_no_such _ _)
  | some k =>
    by_cases h100 : k < 100
    · obtain ⟨d1, hval, hd⟩ := do_dele_found_cell env ss w k hphase harg hret h100
      obtain ⟨hp, hk, hlt, _⟩ := retrieve_some _ _ _ hret
      have hcast : int_pred (atoi w) = (k : Int) := by rw [hk, Int.toNat_of_nonneg hp]
      have hatoi : atoi w = (k : Int) + 1 :=
        int_pred_cell (atoi w) k (atoi_range w).1 (atoi_range w).2 hcast h100
      have hmarked : marked (mail_item_delete ss.mailList k) k = true := by
        rw [marked_delete _ _ _ hlt, if_pos rfl]
      have hcell : d1.read (k : Nat) = some 1 := by
        rw [read_nat, hval, List.getElem?_set, if_pos rfl, if_pos]
        rw [ss.deletedSet.property]
        exact h100
      refine ⟨k, _, hatoi, hlt, hd, ?_, ?_⟩
      · intro t ht
        have hm0 : marks { ss with
            mailList := mail_item_delete ss.mailList k
            deletedSet := d1
            sent := ss.sent ++ ["+OK message " ++ toString (atoi w) ++ " deleted\r\n"]
            mailCalls := ss.mailCalls ++ [MailCall.mail_list_retrieve (int_pred (atoi w)),
              MailCall.mail_item_delete k] } k := ⟨hphase, hmarked, hcell⟩
        have hm : marks t k := run_commands_marks env cmds k _ t hm0 hcmds ht
        have habsent : ∀ v : String, atoi v = atoi w →
            mail_list_retrieve t.mailList (int_pred (atoi v)) = none := by
          intro v hv
          rw [hv, hcast]
          exact retrieve_marked t.mailList k hm.2.1
        refine ⟨hm.1, hm.2.1, ?_, ?_, ?_, ?_, ?_⟩
        · intro hmem
          have := ((visible_mem t.mailList k).mp hmem).2
          rw [hm.2.1] at this
          exact absurd this (by simp)
        · intro ws v hws hv
          have h := do_retr_absent env { t with words := ws } v hm.1 hws (habsent v hv)
          rw [hv, hcast] at h
          exact h
        · intro ws v hws hv
          rw [do_list_arg_absent env { t with words := ws } v hm.1 hws (habsent v hv)]
          rfl
        · intro ws r hws hr
          obtain ⟨_, _, _, ps, tail, h1, h2, h3⟩ :=
            do_list_no_arg_result env { t with words := ws } r hm.1 hws hr
          refine ⟨ps, tail, h1, h2, ?_⟩
          intro hmem
          exact h3 k hmem hm.2.2
        · intro ws
          rw [do_stat_transaction env { t with words := ws } hm.1]
      · intro hcons
        have hs1 : hides { ss with
            mailList := mail_item_delete ss.mailList k
            deletedSet := d1
            sent := ss.sent ++ ["+OK message " ++ toString (atoi w) ++ " deleted\r\n"]
            mailCalls := ss.mailCalls ++ [MailCall.mail_list_retrieve (int_pred (atoi w)),
              MailCall.mail_item_delete k] } k :=
          ⟨hphase, consistent_after_mark ss k d1 _ rfl hval hlt hcons _ rfl rfl, hmarked⟩
        obtain ⟨t, ht1, ht2⟩ := run_commands_hides env cmds k _ hs1 hcmds
        refine ⟨t, ht1, ht2.2.1, ?_⟩
        intro ws hws
        rw [do_list_no_arg env { t with words := ws } ht2.1 (fun i hi => ht2.2.1 i hi) hws]
        rfl
    · rw [do_dele_overrun env ss w k hphase harg hret h100] at hok
      exact absurd hok (by simp)

/-- Witness of C4 on the maildrop of 101 messages: `DELE 1` is answered `+OK`, then
`RETR 1`, `STAT`, `LIST 1` and `NOOP` follow; the sequence reaches a session, and in it
slot 0 (position 1) is still marked. -/
theorem deleted_position_stays_hidden_witness :
    (largeSession.state = State.TRANSACTION ∧ largeSession.mailList.length = 101 ∧
      (do_dele largeEnv { largeSession with words := ["DELE", "1"] }).map
          (fun r => r.1.sent) =
        some (largeSession.sent ++ ["+OK message 1 deleted\r\n"]) ∧
      ((do_dele largeEnv { largeSession with words := ["DELE", "1"] }).bind
          (fun r => run_commands largeEnv
            [["RETR", "1"], ["STAT"], ["LIST", "1"], ["NOOP"]] r.1)).isSome = true) ∧
    ∃ (k : Nat) (s1 : serverstate), atoi "1" = (k : Int) + 1 ∧
      do_dele largeEnv { largeSession with words := ["DELE", "1"] } = some (s1, 0) ∧
      ∀ t : serverstate,
        run_commands largeEnv [["RETR", "1"], ["STAT"], ["LIST", "1"], ["NOOP"]] s1 = some t →
        marked t.mailList k = true :=
  ⟨by decide,
    match deleted_position_stays_hidden largeEnv { largeSession with words := ["DELE", "1"] }
      "1" [["RETR", "1"], ["STAT"], ["LIST", "1"], ["NOOP"]] (by decide) (by decide)
      (by decide)
      (by
        intro c hc
        simp only [List.mem_cons, List.mem_singleton, List.not_mem_nil, or_false] at hc
        rcases hc with rfl | rfl | rfl | rfl
        · exact ⟨"RETR", rfl, Or.inr (Or.inr (Or.inl (by decide)))⟩
        · exact ⟨"STAT", rfl, Or.inl (by decide)⟩
        · exact ⟨"LIST", rfl, Or.inr (Or.inl (by decide))⟩
        · exact ⟨"NOOP", rfl, Or.inr (Or.inr (Or.inr (Or.inr (by decide))))⟩) with
    | ⟨k, s1, h1, _, h3, h4, _⟩ => ⟨k, s1, h1, h3, fun t ht => (h4 t ht).2.1⟩⟩

end POP3
